import Mathlib

/-!
# Verification of the WASM host bridge and SQLite manager

A shallow embedding, in Lean 4, of the WebAssembly execution host of the
browser extension (background service worker, class `WasmRuntime` and the
`runWasmPacketItem` message handler) and of `SQLiteManager.restoreCheckpoint`.

Modelling conventions:
* Guest linear memory is a `List Nat` of bytes; `DataView.setUint32(..., true)`
  becomes four little-endian byte stores; `Uint8Array.set` stores each value
  reduced mod 256, as the platform does.
* JS strings that cross the ABI boundary are modelled as their byte sequences
  (`List Nat`); `TextEncoder`/`TextDecoder` are modelled by `textEncode` /
  `textDecode` over Lean `String`.
* Fallible operations return `Except String (α × Runtime)`; a JS `throw`
  is `.error`.  A `try { } catch` whose body fails is modelled as resuming
  from the state at try entry; every theorem below is independent of
  mutations a failing body would have left behind.
* The guest-side allocator (`cabi_realloc`) is not part of this repository;
  it is modelled from the spec: a bump allocator that returns fresh,
  aligned space at the end of memory and grows memory, failing when the
  wasm32 address space (2^32 bytes) would be exceeded.
-/

/-! ## Byte-level memory primitives -/

/-- Read one byte of linear memory (out-of-range reads yield 0; all reads
performed by the theorems below are in range). -/
def readByte (mem : List Nat) (i : Nat) : Nat := mem.getD i 0

/-- Read `n` consecutive bytes starting at `p`. -/
def readBytes (mem : List Nat) (p n : Nat) : List Nat :=
  (List.range n).map fun i => readByte mem (p + i)

/-- Little-endian 32-bit read, as `DataView.getUint32(p, true)`. -/
def readU32 (mem : List Nat) (p : Nat) : Nat :=
  readByte mem p + 256 * readByte mem (p + 1) + 65536 * readByte mem (p + 2) +
    16777216 * readByte mem (p + 3)

/-- Store a byte sequence at `p`, each value reduced mod 256 as a typed-array
store does.  Stores beyond the end of memory are dropped (all stores performed
by the code run in bounds, established by the allocator contract). -/
def writeBytes (mem : List Nat) (p : Nat) : List Nat → List Nat
  | [] => mem
  | b :: rest => writeBytes (mem.set p (b % 256)) (p + 1) rest

/-- The four little-endian bytes of `v` (reduced mod 2^32). -/
def u32Bytes (v : Nat) : List Nat :=
  [v % 256, v / 256 % 256, v / 65536 % 256, v / 16777216 % 256]

/-- Little-endian 32-bit store, as `DataView.setUint32(p, v, true)`. -/
def setU32 (mem : List Nat) (p v : Nat) : List Nat :=
  writeBytes mem p (u32Bytes v)

/-- Copy `n` bytes from offset `src` to offset `dst`
(`new Uint8Array(buffer, dst, n).set(new Uint8Array(buffer, src, n))`). -/
def copyBytes (mem : List Nat) (dst src n : Nat) : List Nat :=
  writeBytes mem dst (readBytes mem src n)

/-- Store a list of 32-bit values contiguously
(`new Uint32Array(buffer, p, len).set(vals)`). -/
def writeU32List (mem : List Nat) (p : Nat) : List Nat → List Nat
  | [] => mem
  | v :: rest => writeU32List (setU32 mem p v) (p + 4) rest

/-- Round `n` up to a multiple of `a` (`a = 0` leaves `n` unchanged). -/
def alignUp (n a : Nat) : Nat := n + (a - n % a) % a

/-- `m'` agrees with `m` on every byte below index `L`. -/
def agreesBelow (m m' : List Nat) (L : Nat) : Prop :=
  ∀ j, j < L → readByte m' j = readByte m j

/-! ## The `WasmRuntime` state -/

/-- State of the host-side `WasmRuntime` helper: the guest linear memory plus
which allocator export names the instance provides. -/
structure Runtime where
  mem : List Nat
  hasCabiRealloc : Bool
  hasCanonicalAbiRealloc : Bool

/-- Replace the memory of a runtime. -/
def Runtime.withMem (rt : Runtime) (m : List Nat) : Runtime := { rt with mem := m }

/-- `rt'` extends `rt` and touches the bytes below `rt`'s length only inside
the window `[a, b)`. -/
def preservesOutside (rt rt' : Runtime) (a b : Nat) : Prop :=
  rt.mem.length ≤ rt'.mem.length ∧
  ∀ j, j < rt.mem.length → (j < a ∨ b ≤ j) → readByte rt'.mem j = readByte rt.mem j

/-- `WasmRuntime.alloc`: fails with the descriptive message when the guest
exports neither `cabi_realloc` nor `canonical_abi_realloc`; otherwise the
guest allocator runs.  The guest allocator itself is not in this repository;
it is modelled from the spec (a bump allocator returning fresh aligned space
at the end of memory, growing memory, within the wasm32 address space). -/
def Runtime.alloc (rt : Runtime) (size align : Nat) : Except String (Nat × Runtime) :=
  if rt.hasCabiRealloc || rt.hasCanonicalAbiRealloc then
    let base := alignUp rt.mem.length align
    if base + size < 4294967296 then
      .ok (base, rt.withMem (rt.mem ++ List.replicate (base + size - rt.mem.length) 0))
    else
      .error "allocation failed"
  else
    .error "WASM module missing \x27cabi_realloc\x27 or \x27canonical_abi_realloc\x27 export"

/-- String header `{ptr, len}` as returned by `writeString`. -/
structure StrHeader where
  ptr : Nat
  len : Nat
deriving DecidableEq, Repr

/-- `WasmRuntime.readString(ptr, len)`: constructing
`new Uint8Array(memory.buffer, ptr, len)` throws a `RangeError` when
`ptr + len` exceeds the current memory size; otherwise the bytes are
returned (the `TextDecoder` step is modelled separately by `textDecode`). -/
def Runtime.readString (rt : Runtime) (ptr len : Nat) : Except String (List Nat) :=
  if ptr + len ≤ rt.mem.length then
    .ok (readBytes rt.mem ptr len)
  else
    .error "RangeError: invalid typed array length"

/-- `WasmRuntime.writeString`: encode, allocate `len` bytes with alignment 1,
copy, return the header.  The argument is the already-encoded byte sequence
(`TextEncoder().encode(str)`). -/
def Runtime.writeString (rt : Runtime) (bs : List Nat) : Except String (StrHeader × Runtime) := do
  let (p, rt1) ← rt.alloc bs.length 1
  .ok (⟨p, bs.length⟩, rt1.withMem (writeBytes rt1.mem p bs))

/-! ## Base64 (`btoa` / `atob`)

JS binary strings are modelled as lists of character codes.  `atob` is
modelled in its strict, padded form (the only form the handler ever feeds
it: outputs of `btoa`); whitespace skipping and unpadded tails are not
modelled. -/

/-- Character code of the base64 digit with value `v < 64`. -/
def b64Char (v : Nat) : Nat :=
  if v < 26 then 65 + v
  else if v < 52 then 97 + (v - 26)
  else if v < 62 then 48 + (v - 52)
  else if v = 62 then 43
  else 47

/-- Value of a base64 digit character code, `none` for a non-digit. -/
def b64Val (c : Nat) : Option Nat :=
  if 65 ≤ c ∧ c ≤ 90 then some (c - 65)
  else if 97 ≤ c ∧ c ≤ 122 then some (26 + (c - 97))
  else if 48 ≤ c ∧ c ≤ 57 then some (52 + (c - 48))
  else if c = 43 then some 62
  else if c = 47 then some 63
  else none

/-- `btoa`: base64-encode a byte sequence (with `=` padding, code 61). -/
def btoa : List Nat → List Nat
  | [] => []
  | [b0] => [b64Char (b0 / 4), b64Char (b0 % 4 * 16), 61, 61]
  | [b0, b1] => [b64Char (b0 / 4), b64Char (b0 % 4 * 16 + b1 / 16), b64Char (b1 % 16 * 4), 61]
  | b0 :: b1 :: b2 :: rest =>
    b64Char (b0 / 4) :: b64Char (b0 % 4 * 16 + b1 / 16) ::
      b64Char (b1 % 16 * 4 + b2 / 64) :: b64Char (b2 % 64) :: btoa rest

/-- `atob`: base64-decode; `none` models the `InvalidCharacterError` throw. -/
def atob : List Nat → Option (List Nat)
  | [] => some []
  | c0 :: c1 :: c2 :: c3 :: rest =>
    match b64Val c0, b64Val c1 with
    | some v0, some v1 =>
      if c2 = 61 ∧ c3 = 61 ∧ rest = [] then
        some [v0 * 4 + v1 / 16]
      else
        match b64Val c2 with
        | some v2 =>
          if c3 = 61 ∧ rest = [] then
            some [v0 * 4 + v1 / 16, v1 % 16 * 16 + v2 / 4]
          else
            match b64Val c3, atob rest with
            | some v3, some bs =>
              some ((v0 * 4 + v1 / 16) :: (v1 % 16 * 16 + v2 / 4) :: (v2 % 4 * 64 + v3) :: bs)
            | _, _ => none
        | none => none
    | _, _ => none
  | _ => none

/-- Character codes of `"AGFz"`, the base64 encoding of the wasm magic
prefix `\0asm`. -/
def wasmMagicB64 : List Nat := [65, 71, 70, 122]

/-- The payload-decoding logic of `handleMessage case 'runWasmPacketItem'`:
one `atob`, then a second one only when the first decode did not already
start with byte 0 and does start with `"AGFz"`; a failure of the second
`atob` is swallowed by the inner `try { } catch`. -/
def decodeWasmPayload (data : List Nat) : Option (List Nat) :=
  (atob data).bind fun s =>
    if s.head? ≠ some 0 ∧ s.take 4 = wasmMagicB64 then
      some ((atob s).getD s)
    else some s

/-! ## UTF-8 (`TextEncoder` / `TextDecoder`)

`textDecode` is modelled on valid UTF-8 input (it rejects malformed input;
the replacement-character repair of a non-fatal `TextDecoder` is not
modelled — every decode performed by the theorems below is of valid
encoder output). -/

/-- UTF-8 encoding of one Unicode scalar value. -/
def utf8EncodeCP (n : Nat) : List Nat :=
  if n < 128 then [n]
  else if n < 2048 then [192 + n / 64, 128 + n % 64]
  else if n < 65536 then [224 + n / 4096, 128 + n / 64 % 64, 128 + n % 64]
  else [240 + n / 262144, 128 + n / 4096 % 64, 128 + n / 64 % 64, 128 + n % 64]

/-- Decode one UTF-8 sequence from the front of a byte list: the scalar
value and the remaining bytes (rejecting malformed, overlong, surrogate and
out-of-range sequences). -/
def utf8DecodeOne : List Nat → Option (Nat × List Nat)
  | [] => none
  | b :: bs =>
    if b < 128 then some (b, bs)
    else if b < 194 then none
    else if b < 224 then
      match bs with
      | b1 :: bs1 =>
        if 128 ≤ b1 ∧ b1 < 192 then some ((b - 192) * 64 + (b1 - 128), bs1) else none
      | [] => none
    else if b < 240 then
      match bs with
      | b1 :: b2 :: bs1 =>
        if 128 ≤ b1 ∧ b1 < 192 ∧ 128 ≤ b2 ∧ b2 < 192 then
          let n := (b - 224) * 4096 + (b1 - 128) * 64 + (b2 - 128)
          if n < 2048 ∨ (55296 ≤ n ∧ n < 57344) then none else some (n, bs1)
        else none
      | _ => none
    else if b < 248 then
      match bs with
      | b1 :: b2 :: b3 :: bs1 =>
        if 128 ≤ b1 ∧ b1 < 192 ∧ 128 ≤ b2 ∧ b2 < 192 ∧ 128 ≤ b3 ∧ b3 < 192 then
          let n := (b - 240) * 262144 + (b1 - 128) * 4096 + (b2 - 128) * 64 + (b3 - 128)
          if n < 65536 ∨ 1114112 ≤ n then none else some (n, bs1)
        else none
      | _ => none
    else none

/-- Iterate `utf8DecodeOne`.  The fuel bounds the number of decoded
sequences; since every sequence consumes at least one byte, fuel equal to
the byte count always suffices. -/
def utf8DecodeAux : Nat → List Nat → Option (List Nat)
  | _, [] => some []
  | fuel + 1, b :: bs =>
    match utf8DecodeOne (b :: bs) with
    | some (n, rest) => (utf8DecodeAux fuel rest).map (n :: ·)
    | none => none
  | 0, _ :: _ => none

/-- UTF-8 decoding to a list of scalar values. -/
def utf8Decode (bs : List Nat) : Option (List Nat) :=
  utf8DecodeAux bs.length bs

/-- `TextEncoder().encode(s)` as a byte list. -/
def textEncode (s : String) : List Nat :=
  s.data.flatMap fun c => utf8EncodeCP c.toNat

/-- `TextDecoder().decode(bytes)` on valid UTF-8 input. -/
def textDecode (bs : List Nat) : Option String :=
  (utf8Decode bs).map fun ns => ⟨ns.map Char.ofNat⟩

/-! ## Bookmark nodes and the Canonical-ABI encoders -/

/-- A bookmark tree node as the host sees it (`chrome.bookmarks` node).
String fields are byte sequences; `parentId` / `url` / `children` may be
absent (`undefined` in JS). -/
inductive BNode where
  | mk (id : List Nat) (parentId : Option (List Nat)) (title : List Nat)
       (url : Option (List Nat)) (children : Option (List BNode))

/-- The `id` field. -/
def BNode.id : BNode → List Nat
  | .mk i _ _ _ _ => i

/-- The `parentId` field. -/
def BNode.parentId : BNode → Option (List Nat)
  | .mk _ p _ _ _ => p

/-- The `title` field. -/
def BNode.title : BNode → List Nat
  | .mk _ _ t _ _ => t

/-- The `url` field. -/
def BNode.url : BNode → Option (List Nat)
  | .mk _ _ _ u _ => u

/-- The `children` field. -/
def BNode.children : BNode → Option (List BNode)
  | .mk _ _ _ _ c => c

/-- JS truthiness of an optional string: `undefined` and `""` are falsy. -/
def truthyStr : Option (List Nat) → Option (List Nat)
  | some s => if s = [] then none else some s
  | none => none

/-- One string field of `encodeBookmarkNode`: write the string, then its
header at `ptr + off` / `ptr + off + 4`. -/
def encodeStrField (rt : Runtime) (ptr off : Nat) (s : List Nat) : Except String Runtime := do
  let (hdr, rt) ← rt.writeString s
  .ok (rt.withMem (setU32 (setU32 rt.mem (ptr + off) hdr.ptr) (ptr + off + 4) hdr.len))

/-- One `option<string>` field of `encodeBookmarkNode`: a truthy value gets
discriminant 1 at `ptr + off` and the header at `+ 4` / `+ 8`; a falsy one
only discriminant 0. -/
def encodeOptStrField (rt : Runtime) (ptr off : Nat) :
    Option (List Nat) → Except String Runtime
  | some s => do
    let (hdr, rt) ← rt.writeString s
    .ok (rt.withMem (setU32 (setU32 (setU32 rt.mem (ptr + off) 1) (ptr + off + 4) hdr.ptr)
      (ptr + off + 8) hdr.len))
  | none => .ok (rt.withMem (setU32 rt.mem (ptr + off) 0))

mutual

/-- `WasmRuntime.encodeBookmarkNode(node, targetPtr)`: 52-byte record with
field offsets id 0, parent-id 8 (option), title 20, url 28 (option),
children 40 (option of list).  `targetPtr || this.alloc(52, 4)` makes a
passed pointer of 0 fall back to a fresh allocation (JS falsiness). -/
def encodeBookmarkNode (rt : Runtime) : BNode → Option Nat → Except String (Nat × Runtime)
  | .mk nid npid ntitle nurl nchildren, targetPtr => do
    let (ptr, rt) ←
      match targetPtr with
      | some p => if p = 0 then rt.alloc 52 4 else .ok (p, rt)
      | none => rt.alloc 52 4
    encodeBookmarkFields rt ptr nid npid ntitle nurl nchildren
termination_by n _ => (sizeOf n, 1)

/-- The field writes of `encodeBookmarkNode`, after the record pointer has
been resolved. -/
def encodeBookmarkFields (rt : Runtime) (ptr : Nat) (nid : List Nat)
    (npid : Option (List Nat)) (ntitle : List Nat) (nurl : Option (List Nat))
    (nchildren : Option (List BNode)) : Except String (Nat × Runtime) := do
  let rt ← encodeStrField rt ptr 0 nid
  let rt ← encodeOptStrField rt ptr 8 (truthyStr npid)
  let rt ← encodeStrField rt ptr 20 ntitle
  let rt ← encodeOptStrField rt ptr 28 (truthyStr nurl)
  match nchildren with
  | some (c :: cs) => do
    let (enc, rt) ← encodeBookmarkList rt (c :: cs)
    .ok (ptr, rt.withMem (setU32 (setU32 (setU32 rt.mem (ptr + 40) 1) (ptr + 44) enc.ptr)
      (ptr + 48) enc.len))
  | some [] => .ok (ptr, rt.withMem (setU32 rt.mem (ptr + 40) 0))
  | none => .ok (ptr, rt.withMem (setU32 rt.mem (ptr + 40) 0))
termination_by (sizeOf nchildren, 0)

/-- `WasmRuntime.encodeBookmarkList(nodes)`: a contiguous array of 52-byte
structs. -/
def encodeBookmarkList (rt : Runtime) (nodes : List BNode) : Except String (StrHeader × Runtime) := do
  let (listPtr, rt) ← rt.alloc (nodes.length * 52) 4
  let rt ← encodeNodesAt rt nodes listPtr
  .ok (⟨listPtr, nodes.length⟩, rt)
termination_by (sizeOf nodes, 3)

/-- The loop of `encodeBookmarkList`: write each node at stride 52. -/
def encodeNodesAt (rt : Runtime) : List BNode → Nat → Except String Runtime
  | [], _ => .ok rt
  | n :: rest, p => do
    let (_, rt) ← encodeBookmarkNode rt n (some p)
    encodeNodesAt rt rest (p + 52)
termination_by ns _ => (sizeOf ns, 2)

end

/-- Frame property of `encodeBookmarkNode` up to size `k`: only the 52-byte
record window at the returned pointer (plus fresh memory) is written, and a
non-zero target pointer is honoured. -/
def NodeFrameP (k : Nat) : Prop :=
  ∀ (node : BNode) (rt : Runtime) (tp : Option Nat) (p : Nat) (rt' : Runtime),
    sizeOf node < k → encodeBookmarkNode rt node tp = .ok (p, rt') →
    preservesOutside rt rt' p (p + 52) ∧
    (∀ q, tp = some q → p = q ∨ rt.mem.length ≤ p)

/-- Frame property of the `encodeBookmarkList` loop up to size `k`: only the
window of the structs being written (plus fresh memory) is touched. -/
def NodesAtFrameP (k : Nat) : Prop :=
  ∀ (nodes : List BNode) (rt : Runtime) (p : Nat) (rt' : Runtime),
    sizeOf nodes < k → encodeNodesAt rt nodes p = .ok rt' →
    preservesOutside rt rt' p (p + 52 * nodes.length)

/-- Frame property of `encodeBookmarkFields` up to size `k`. -/
def FieldsFrameP (k : Nat) : Prop :=
  ∀ (nid : List Nat) (npid : Option (List Nat)) (ntitle : List Nat)
    (nurl : Option (List Nat)) (nchildren : Option (List BNode))
    (rt : Runtime) (ptr p : Nat) (rt' : Runtime),
    sizeOf nchildren < k →
    encodeBookmarkFields rt ptr nid npid ntitle nurl nchildren = .ok (p, rt') →
    p = ptr ∧ preservesOutside rt rt' ptr (ptr + 52)

/-- Frame property of `encodeBookmarkList` up to size `k`: existing memory
is untouched (the struct array and all nested data are fresh). -/
def ListFrameP (k : Nat) : Prop :=
  ∀ (nodes : List BNode) (rt : Runtime) (enc : StrHeader) (rt' : Runtime),
    sizeOf nodes < k → encodeBookmarkList rt nodes = .ok (enc, rt') →
    rt.mem.length ≤ rt'.mem.length ∧ agreesBelow rt.mem rt'.mem rt.mem.length

/-- `WasmRuntime.encodeStringList(strs)`: allocate `8 * length` bytes of
headers, then write each string and its header in order. -/
def encodeStringsAt (rt : Runtime) (listPtr : Nat) : List (List Nat) → Nat → Except String Runtime
  | [], _ => .ok rt
  | s :: rest, i => do
    let (hdr, rt) ← rt.writeString s
    let rt := rt.withMem (setU32 (setU32 rt.mem (listPtr + i * 8) hdr.ptr)
      (listPtr + i * 8 + 4) hdr.len)
    encodeStringsAt rt listPtr rest (i + 1)

/-- `WasmRuntime.encodeStringList`. -/
def encodeStringList (rt : Runtime) (strs : List (List Nat)) : Except String (StrHeader × Runtime) := do
  let (listPtr, rt) ← rt.alloc (strs.length * 8) 4
  let rt ← encodeStringsAt rt listPtr strs 0
  .ok (⟨listPtr, strs.length⟩, rt)

/-- Decode a `list<string>`: read each 8-byte header, then the bytes it
points to. -/
def decodeStringList (mem : List Nat) (ptr len : Nat) : List (List Nat) :=
  (List.range len).map fun i =>
    readBytes mem (readU32 mem (ptr + i * 8)) (readU32 mem (ptr + i * 8 + 4))

/-! ## The sqlite capability (`user:sqlite/sqlite`) -/

/-- A cell value returned by the embedded database engine.  Floating-point
cells are out of scope of this development; numeric cells are modelled as
integers. -/
inductive SQLValue where
  | null
  | int (i : Int)
  | text (s : List Nat)

/-- Decimal digits (as ASCII byte codes) of a natural number. -/
def natDecBytes (n : Nat) : List Nat :=
  if n < 10 then [48 + n]
  else natDecBytes (n / 10) ++ [48 + n % 10]

/-- Decimal string (as ASCII byte codes) of an integer. -/
def intDecBytes : Int → List Nat
  | .ofNat n => natDecBytes n
  | .negSucc n => 45 :: natDecBytes (n + 1)

/-- `String(v ?? '')`: SQL `null` becomes the empty string, numbers their
decimal string, strings themselves. -/
def cellToString : SQLValue → List Nat
  | .null => []
  | .int i => intDecBytes i
  | .text s => s

/-- A successful `db.exec(sql)` result for a query. -/
structure QueryOut where
  columns : List (List Nat)
  rows : List (List SQLValue)

/-- The `try` body of `sqliteHost.execute`: run the statement (the embedded
engine is an oracle `dbExec`), then encode `result<u32, string>` as a
12-byte blob: discriminant 0 at offset 0, rows-changed at offset 4. -/
def executeTryBody (dbExec : List Nat → List Nat → Except String Nat) (rt : Runtime)
    (dbName sql : List Nat) : Except String (Nat × Runtime) := do
  let changes ← dbExec dbName sql
  let (resultPtr, rt) ← rt.alloc 12 4
  .ok (resultPtr, rt.withMem (setU32 (setU32 rt.mem resultPtr 0) (resultPtr + 4) changes))

/-- `sqliteHost.execute`: the two argument strings are decoded **before**
the `try`, so a decode failure propagates out of the capability; the `catch`
encodes the error message as the Err arm (discriminant 1, message header at
offsets 4 and 8). -/
def sqliteExecute (dbExec : List Nat → List Nat → Except String Nat) (rt : Runtime)
    (dbNamePtr dbNameLen sqlPtr sqlLen : Nat) : Except String (Nat × Runtime) := do
  let dbName ← rt.readString dbNamePtr dbNameLen
  let sql ← rt.readString sqlPtr sqlLen
  match executeTryBody dbExec rt dbName sql with
  | .ok r => .ok r
  | .error e => do
    let (errStr, rt) ← rt.writeString (textEncode e)
    let (resultPtr, rt) ← rt.alloc 12 4
    .ok (resultPtr, rt.withMem (setU32 (setU32 (setU32 rt.mem resultPtr 1)
      (resultPtr + 4) errStr.ptr) (resultPtr + 8) errStr.len))

/-- The `rows.map(...)` loop of `sqliteHost.query`: for each row, encode its
stringified cells as a `list<string>`, then an 8-byte row record pointing at
it; returns the row-record pointers. -/
def encodeRows (rt : Runtime) : List (List SQLValue) → Except String (List Nat × Runtime)
  | [] => .ok ([], rt)
  | r :: rest => do
    let (ve, rt) ← encodeStringList rt (r.map cellToString)
    let (rPtr, rt) ← rt.alloc 8 4
    let rt := rt.withMem (setU32 (setU32 rt.mem rPtr ve.ptr) (rPtr + 4) ve.len)
    let (ps, rt) ← encodeRows rt rest
    .ok (rPtr :: ps, rt)

/-- The `try` body of `sqliteHost.query`: run the query (oracle `dbQuery`),
encode the column names, the rows (as a list of row-record pointers, stride
4), a 16-byte query-result record, and finally a 20-byte `result` blob with
discriminant 0 whose payload is a byte copy of the query-result record. -/
def queryTryBody (dbQuery : List Nat → List Nat → Except String QueryOut) (rt : Runtime)
    (dbName sql : List Nat) : Except String (Nat × Runtime) := do
  let qr ← dbQuery dbName sql
  let (colEnc, rt) ← encodeStringList rt qr.columns
  let (rowPtrs, rt) ← encodeRows rt qr.rows
  let (rowsListPtr, rt) ← rt.alloc (rowPtrs.length * 4) 4
  let rt := rt.withMem (writeU32List rt.mem rowsListPtr rowPtrs)
  let (qrPtr, rt) ← rt.alloc 16 4
  let rt := rt.withMem (setU32 (setU32 (setU32 (setU32 rt.mem qrPtr colEnc.ptr)
    (qrPtr + 4) colEnc.len) (qrPtr + 8) rowsListPtr) (qrPtr + 12) rowPtrs.length)
  let (resultPtr, rt) ← rt.alloc 20 4
  let rt := rt.withMem (setU32 rt.mem resultPtr 0)
  .ok (resultPtr, rt.withMem (copyBytes rt.mem (resultPtr + 4) qrPtr 16))

/-- `sqliteHost.query`: argument strings decoded **before** the `try`; the
`catch` encodes the Err arm of a 20-byte result blob. -/
def sqliteQuery (dbQuery : List Nat → List Nat → Except String QueryOut) (rt : Runtime)
    (dbNamePtr dbNameLen sqlPtr sqlLen : Nat) : Except String (Nat × Runtime) := do
  let dbName ← rt.readString dbNamePtr dbNameLen
  let sql ← rt.readString sqlPtr sqlLen
  match queryTryBody dbQuery rt dbName sql with
  | .ok r => .ok r
  | .error e => do
    let (errStr, rt) ← rt.writeString (textEncode e)
    let (resultPtr, rt) ← rt.alloc 20 4
    .ok (resultPtr, rt.withMem (setU32 (setU32 (setU32 rt.mem resultPtr 1)
      (resultPtr + 4) errStr.ptr) (resultPtr + 8) errStr.len))

/-! ## The bookmarks capability (`chrome:bookmarks/bookmarks`) -/

/-- The `try` body of `get-tree`: throw `"Cache not ready"` when the
process-wide bookmark cache was never populated, otherwise encode the cached
list and a 12-byte Ok result (discriminant 0, list header at offsets 4, 8). -/
def getTreeTryBody (cache : Option (List BNode)) (rt : Runtime) : Except String (Nat × Runtime) := do
  match cache with
  | none => .error "Cache not ready"
  | some nodes => do
    let (enc, rt) ← encodeBookmarkList rt nodes
    let (resultPtr, rt) ← rt.alloc 12 4
    .ok (resultPtr, rt.withMem (setU32 (setU32 (setU32 rt.mem resultPtr 0)
      (resultPtr + 4) enc.ptr) (resultPtr + 8) enc.len))

/-- `importObject["chrome:bookmarks/bookmarks"]["get-tree"]`: the `catch`
encodes the error message as the Err arm (discriminant 1). -/
def bookmarksGetTree (cache : Option (List BNode)) (rt : Runtime) : Except String (Nat × Runtime) :=
  match getTreeTryBody cache rt with
  | .ok r => .ok r
  | .error e => do
    let (errStr, rt) ← rt.writeString (textEncode e)
    let (resultPtr, rt) ← rt.alloc 12 4
    .ok (resultPtr, rt.withMem (setU32 (setU32 (setU32 rt.mem resultPtr 1)
      (resultPtr + 4) errStr.ptr) (resultPtr + 8) errStr.len))

/-! ## The execution host (`handleMessage case 'runWasmPacketItem'`) -/

/-- Outcome of invoking a guest entry point: a numeric return code, or a
thrown error / trap with its message. -/
inductive EntryOutcome where
  | ret (code : Int)
  | err (msg : String)

/-- Observable behaviour of one guest entry-point invocation: the log lines
it emits through the imports, then its outcome. -/
structure EntryBehavior where
  logs : List String
  outcome : EntryOutcome

/-- The instantiated guest module as the handler sees it: its optional
`run` and `main` exports (with their behaviour when invoked) and whether it
exports an allocator (`cabi_realloc` or `canonical_abi_realloc`).  Guest
code is external to the repository, so entry-point behaviour is abstract. -/
structure WasmInstance where
  runE : Option EntryBehavior
  mainE : Option EntryBehavior
  hasAllocator : Bool

/-- The response object passed to `sendResponse`.  Fields that a given code
path does not set are `none` (`logs = none` models a response object with no
`logs` property at all). -/
structure WasmResponse where
  success : Bool
  result : Option Int
  error : Option String
  logs : Option (List String)
deriving DecidableEq, Repr

/-- Entry-point dispatch and result reporting (`part_003` lines 824-836):
prefer `run`, fall back to `main`, otherwise fail with the accumulated logs.
A throw from the entry point is caught by the outer `catch (err)`, which
responds `{success: false, error: err.message}` — without a `logs` field.
`logs0` is the content of `executionLogs` before the entry point runs. -/
def dispatchEntry (logs0 : List String) (inst : WasmInstance) : WasmResponse :=
  match inst.runE with
  | some b =>
    match b.outcome with
    | .ret code => ⟨true, some code, none, some (logs0 ++ b.logs)⟩
    | .err msg => ⟨false, none, some msg, none⟩
  | none =>
    match inst.mainE with
    | some b =>
      match b.outcome with
      | .ret code => ⟨true, some code, none, some (logs0 ++ b.logs)⟩
      | .err msg => ⟨false, none, some msg, none⟩
    | none => ⟨false, none, some "No run or main export found", some logs0⟩

/-- Result of `WebAssembly.instantiate`: an instance (with any log lines a
start function emitted), a `LinkError`, or another error. -/
inductive InstantiateResult where
  | ok (inst : WasmInstance) (startLogs : List String)
  | linkError (msg : String)
  | otherError (msg : String)

/-- The `runWasmPacketItem` handler: base64-decode (possibly twice),
instantiate, dispatch the entry point.  Errors thrown anywhere are caught by
the outer `catch`, which responds without logs; a `LinkError` is re-thrown
wrapped in a descriptive message first. -/
def runWasmPacketItem (data : List Nat) (instantiate : List Nat → InstantiateResult) :
    WasmResponse :=
  match decodeWasmPayload data with
  | none => ⟨false, none, some "InvalidCharacterError", none⟩
  | some bytes =>
    match instantiate bytes with
    | .linkError m =>
      ⟨false, none,
        some ("WASM LinkError: " ++ m ++ ". Possible mismatch between generated code and host imports."),
        none⟩
    | .otherError m => ⟨false, none, some m, none⟩
    | .ok inst startLogs => dispatchEntry startLogs inst

/-! ## `SQLiteManager.restoreCheckpoint` -/

/-- An open database handle: `none` bytes for a fresh `new SQL.Database()`,
`some bytes` for one imported from a checkpoint. -/
structure DBHandle where
  contents : Option (List Nat)
deriving DecidableEq, Repr

/-- `Map.prototype.set` on an association list: replace in place, else
append. -/
def mapSet (l : List (String × DBHandle)) (k : String) (v : DBHandle) :
    List (String × DBHandle) :=
  match l with
  | [] => [(k, v)]
  | (k1, v1) :: rest => if k1 = k then (k, v) :: rest else (k1, v1) :: mapSet rest k v

/-- `Map.prototype.get` on an association list. -/
def mapGet (l : List (String × DBHandle)) (k : String) : Option DBHandle :=
  match l with
  | [] => none
  | (k1, v1) :: rest => if k1 = k then some v1 else mapGet rest k

/-- The manager's `databases` map. -/
structure ManagerState where
  databases : List (String × DBHandle)
deriving Repr

/-- `SQLiteManager.restoreCheckpoint(collectionName, storage)`: look up the
key `"checkpoint_" ++ name`; missing (or null) value ⇒ return `false`
untouched; otherwise base64-decode the checkpoint (a decode throw
propagates), build a database from the bytes, replace the map entry, return
`true`. -/
def restoreCheckpoint (m : ManagerState) (storage : String → Option (List Nat))
    (name : String) : Except String (Bool × ManagerState) :=
  match storage ("checkpoint_" ++ name) with
  | none => .ok (false, m)
  | some b64 =>
    match atob b64 with
    | none => .error "InvalidCharacterError"
    | some bytes => .ok (true, ⟨mapSet m.databases name ⟨some bytes⟩⟩)

/-! ## Lemmas: byte-level memory -/

theorem length_writeBytes (bs : List Nat) (mem : List Nat) (p : Nat) :
    (writeBytes mem p bs).length = mem.length := by
  induction bs generalizing mem p with
  | nil => rfl
  | cons b rest ih => simp [writeBytes, ih]

theorem readByte_writeBytes_outside (bs : List Nat) (mem : List Nat) (p j : Nat)
    (h : j < p ∨ p + bs.length ≤ j) : readByte (writeBytes mem p bs) j = readByte mem j := by
  induction bs generalizing mem p with
  | nil => rfl
  | cons b rest ih =>
    simp only [List.length_cons] at h
    simp only [writeBytes]
    rw [ih _ _ (by omega)]
    simp only [readByte, List.getD_eq_getElem?_getD]
    rw [List.getElem?_set_ne (by omega)]

theorem readByte_writeBytes_inside (bs : List Nat) (mem : List Nat) (p i : Nat)
    (hi : i < bs.length) (hb : p + i < mem.length) :
    readByte (writeBytes mem p bs) (p + i) = bs[i] % 256 := by
  induction bs generalizing mem p i with
  | nil => simp at hi
  | cons b rest ih =>
    simp only [writeBytes]
    match i with
    | 0 =>
      rw [readByte_writeBytes_outside _ _ _ _ (Or.inl (by omega))]
      simp only [readByte, List.getD_eq_getElem?_getD, Nat.add_zero]
      rw [List.getElem?_set_self (by omega)]
      rfl
    | i + 1 =>
      have := ih (mem.set p (b % 256)) (p + 1) i (by simpa using hi) (by simp; omega)
      simpa [Nat.add_assoc, Nat.add_comm 1 i] using this

theorem readByte_append_left (mem ext : List Nat) (j : Nat) (h : j < mem.length) :
    readByte (mem ++ ext) j = readByte mem j := by
  simp only [readByte, List.getD_eq_getElem?_getD]
  rw [List.getElem?_append_left h]

theorem readU32_writeBytes_outside (bs : List Nat) (mem : List Nat) (p j : Nat)
    (h : j + 4 ≤ p ∨ p + bs.length ≤ j) :
    readU32 (writeBytes mem p bs) j = readU32 mem j := by
  simp only [readU32]
  rw [readByte_writeBytes_outside _ _ _ _ (by omega),
    readByte_writeBytes_outside _ _ _ _ (by omega),
    readByte_writeBytes_outside _ _ _ _ (by omega),
    readByte_writeBytes_outside _ _ _ _ (by omega)]

theorem readU32_append_left (mem ext : List Nat) (j : Nat) (h : j + 4 ≤ mem.length) :
    readU32 (mem ++ ext) j = readU32 mem j := by
  simp only [readU32]
  rw [readByte_append_left _ _ _ (by omega), readByte_append_left _ _ _ (by omega),
    readByte_append_left _ _ _ (by omega), readByte_append_left _ _ _ (by omega)]

theorem readU32_setU32 (mem : List Nat) (p v : Nat) (hb : p + 4 ≤ mem.length) :
    readU32 (setU32 mem p v) p = v % 4294967296 := by
  have h4 : (u32Bytes v).length = 4 := rfl
  have h0 := readByte_writeBytes_inside (u32Bytes v) mem p 0 (by omega) (by omega)
  have h1 := readByte_writeBytes_inside (u32Bytes v) mem p 1 (by omega) (by omega)
  have h2 := readByte_writeBytes_inside (u32Bytes v) mem p 2 (by omega) (by omega)
  have h3 := readByte_writeBytes_inside (u32Bytes v) mem p 3 (by omega) (by omega)
  have e0 : (u32Bytes v)[0] = v % 256 := rfl
  have e1 : (u32Bytes v)[1] = v / 256 % 256 := rfl
  have e2 : (u32Bytes v)[2] = v / 65536 % 256 := rfl
  have e3 : (u32Bytes v)[3] = v / 16777216 % 256 := rfl
  simp only [Nat.add_zero, e0, e1, e2, e3] at h0 h1 h2 h3
  simp only [readU32, setU32]
  rw [h0, h1, h2, h3]
  omega

theorem length_setU32 (mem : List Nat) (p v : Nat) :
    (setU32 mem p v).length = mem.length := length_writeBytes _ _ _

theorem readU32_setU32_outside (mem : List Nat) (p v j : Nat)
    (h : j + 4 ≤ p ∨ p + 4 ≤ j) : readU32 (setU32 mem p v) j = readU32 mem j := by
  apply readU32_writeBytes_outside
  simp only [u32Bytes, List.length_cons, List.length_nil]
  omega

theorem readByte_setU32_outside (mem : List Nat) (p v j : Nat)
    (h : j < p ∨ p + 4 ≤ j) : readByte (setU32 mem p v) j = readByte mem j := by
  apply readByte_writeBytes_outside
  simp only [u32Bytes, List.length_cons, List.length_nil]
  omega

theorem readBytes_writeBytes (bs : List Nat) (mem : List Nat) (p : Nat)
    (hb : p + bs.length ≤ mem.length) (h256 : ∀ b ∈ bs, b < 256) :
    readBytes (writeBytes mem p bs) p bs.length = bs := by
  simp only [readBytes]
  apply List.ext_getElem
  · simp
  · intro i hi1 hi2
    simp only [List.getElem_map, List.getElem_range]
    rw [readByte_writeBytes_inside bs mem p i (by simpa using hi2) (by simp at hi1; omega)]
    exact Nat.mod_eq_of_lt (h256 _ (bs.getElem_mem _))

theorem readBytes_agreesBelow (m m' : List Nat) (L p n : Nat)
    (hag : agreesBelow m m' L) (hb : p + n ≤ L) :
    readBytes m' p n = readBytes m p n := by
  simp only [readBytes]
  apply List.map_congr_left
  intro i hi
  simp only [List.mem_range] at hi
  exact hag _ (by omega)

theorem readBytes_congr {m m' : List Nat} {p n : Nat}
    (h : ∀ j, p ≤ j → j < p + n → readByte m' j = readByte m j) :
    readBytes m' p n = readBytes m p n := by
  simp only [readBytes]
  apply List.map_congr_left
  intro i hi
  simp only [List.mem_range] at hi
  exact h _ (by omega) (by omega)

theorem readU32_agreesBelow (m m' : List Nat) (L p : Nat)
    (hag : agreesBelow m m' L) (hb : p + 4 ≤ L) :
    readU32 m' p = readU32 m p := by
  simp only [readU32]
  rw [hag _ (by omega), hag _ (by omega), hag _ (by omega), hag _ (by omega)]

theorem agreesBelow_refl (m : List Nat) (L : Nat) : agreesBelow m m L :=
  fun _ _ => rfl

theorem agreesBelow_trans {m1 m2 m3 : List Nat} {L1 L2 : Nat}
    (h12 : agreesBelow m1 m2 L1) (h23 : agreesBelow m2 m3 L2) (h : L1 ≤ L2) :
    agreesBelow m1 m3 L1 := by
  intro j hj
  rw [h23 _ (by omega), h12 _ hj]

theorem agreesBelow_mono {m m' : List Nat} {L L' : Nat}
    (h : agreesBelow m m' L) (hle : L' ≤ L) : agreesBelow m m' L' :=
  fun j hj => h j (by omega)

theorem agreesBelow_writeBytes (mem : List Nat) (p : Nat) (bs : List Nat) (hp : L ≤ p) :
    agreesBelow mem (writeBytes mem p bs) L := by
  intro j hj
  exact readByte_writeBytes_outside _ _ _ _ (Or.inl (by omega))

theorem agreesBelow_append (mem ext : List Nat) (hL : L ≤ mem.length) :
    agreesBelow mem (mem ++ ext) L :=
  fun j hj => readByte_append_left _ _ _ (by omega)

/-! ## Lemmas: allocator and string write -/

theorem alignUp_ge (n a : Nat) : n ≤ alignUp n a := Nat.le_add_right _ _

theorem eBindOk {α β : Type} (a : α) (f : α → Except String β) :
    (Except.ok a >>= f) = f a := rfl

theorem eBindErr {α β : Type} (e : String) (f : α → Except String β) :
    ((Except.error e : Except String α) >>= f) = Except.error e := rfl

/-- What a successful allocation guarantees. -/
theorem alloc_spec {rt : Runtime} {size align p : Nat} {rt' : Runtime}
    (h : rt.alloc size align = .ok (p, rt')) :
    rt.mem.length ≤ p ∧ rt'.mem.length = p + size ∧ rt'.mem.length < 4294967296 ∧
      agreesBelow rt.mem rt'.mem rt.mem.length ∧
      rt'.hasCabiRealloc = rt.hasCabiRealloc ∧
      rt'.hasCanonicalAbiRealloc = rt.hasCanonicalAbiRealloc := by
  simp only [Runtime.alloc] at h
  split at h
  · split at h
    · simp only [Except.ok.injEq, Prod.mk.injEq] at h
      obtain ⟨hp, hrt⟩ := h
      subst hp
      subst hrt
      have hge := alignUp_ge rt.mem.length align
      refine ⟨hge, ?_, ?_, ?_, rfl, rfl⟩
      · simp only [Runtime.withMem, List.length_append, List.length_replicate]
        omega
      · simp only [Runtime.withMem, List.length_append, List.length_replicate]
        omega
      · exact agreesBelow_append _ _ (Nat.le_refl _)
    · exact absurd h (by simp)
  · exact absurd h (by simp)

theorem alloc_missing {rt : Runtime} (h1 : rt.hasCabiRealloc = false)
    (h2 : rt.hasCanonicalAbiRealloc = false) (size align : Nat) :
    rt.alloc size align =
      .error "WASM module missing \x27cabi_realloc\x27 or \x27canonical_abi_realloc\x27 export" := by
  unfold Runtime.alloc
  rw [h1, h2]
  rfl

/-- What a successful `writeString` guarantees: fresh placement, preserved
lower memory, and the written bytes readable in any later memory that still
agrees on the written range. -/
theorem writeString_spec {rt : Runtime} {bs : List Nat} {hdr : StrHeader} {rt' : Runtime}
    (h : rt.writeString bs = .ok (hdr, rt')) (h256 : ∀ b ∈ bs, b < 256) :
    hdr.len = bs.length ∧ rt.mem.length ≤ hdr.ptr ∧ hdr.ptr + bs.length = rt'.mem.length ∧
      rt'.mem.length < 4294967296 ∧ agreesBelow rt.mem rt'.mem rt.mem.length ∧
      (∀ m2, (∀ j, hdr.ptr ≤ j → j < rt'.mem.length → readByte m2 j = readByte rt'.mem j) →
        readBytes m2 hdr.ptr hdr.len = bs) ∧
      rt'.hasCabiRealloc = rt.hasCabiRealloc ∧
      rt'.hasCanonicalAbiRealloc = rt.hasCanonicalAbiRealloc := by
  unfold Runtime.writeString at h
  cases halloc : rt.alloc bs.length 1 with
  | error e => rw [halloc, eBindErr] at h; exact absurd h (by simp)
  | ok pr =>
    obtain ⟨p, rt1⟩ := pr
    rw [halloc, eBindOk] at h
    simp only [Except.ok.injEq, Prod.mk.injEq] at h
    obtain ⟨hhdr, hrt⟩ := h
    obtain ⟨hple, hlen1, hlt1, hag1, hf1, hf2⟩ := alloc_spec halloc
    subst hhdr hrt
    have hwlen : (writeBytes rt1.mem p bs).length = rt1.mem.length := length_writeBytes _ _ _
    refine ⟨rfl, hple, ?_, ?_, ?_, ?_, ?_, ?_⟩
    · simp only [Runtime.withMem]
      omega
    · simp only [Runtime.withMem]
      omega
    · simp only [Runtime.withMem]
      exact agreesBelow_trans hag1 (agreesBelow_writeBytes rt1.mem p bs (Nat.le_refl p)) hple
    · intro m2 hag2
      simp only [Runtime.withMem] at hag2
      have hrb : readBytes (writeBytes rt1.mem p bs) p bs.length = bs :=
        readBytes_writeBytes bs rt1.mem p (by omega) h256
      show readBytes m2 p bs.length = bs
      refine (readBytes_congr ?_).trans hrb
      intro j hj1 hj2
      exact hag2 j hj1 (by rw [hwlen]; omega)
    · simpa [Runtime.withMem] using hf1
    · simpa [Runtime.withMem] using hf2

/-- `writeString` fails when both allocator exports are missing. -/
theorem writeString_missing {rt : Runtime} (h1 : rt.hasCabiRealloc = false)
    (h2 : rt.hasCanonicalAbiRealloc = false) (bs : List Nat) :
    rt.writeString bs =
      .error "WASM module missing \x27cabi_realloc\x27 or \x27canonical_abi_realloc\x27 export" := by
  unfold Runtime.writeString
  rw [alloc_missing h1 h2]
  rfl

/-! ## Lemmas: base64 -/

theorem b64Val_b64Char : ∀ v, v < 64 → b64Val (b64Char v) = some v := by decide

theorem b64Char_ne_61 : ∀ v, b64Char v ≠ 61 := by
  intro v
  unfold b64Char
  split
  · omega
  · split
    · omega
    · split
      · omega
      · split <;> omega

theorem atob_btoa (bs : List Nat) (h256 : ∀ b ∈ bs, b < 256) : atob (btoa bs) = some bs := by
  induction bs using btoa.induct with
  | case1 => rfl
  | case2 b0 =>
    have hb0 : b0 < 256 := h256 _ (by simp)
    simp only [btoa, atob]
    rw [b64Val_b64Char _ (by omega), b64Val_b64Char _ (by omega)]
    dsimp only
    rw [if_pos ⟨trivial, trivial, trivial⟩]
    simp only [Option.some.injEq, List.cons.injEq, and_true]
    omega
  | case3 b0 b1 =>
    have hb0 : b0 < 256 := h256 _ (by simp)
    have hb1 : b1 < 256 := h256 _ (by simp)
    simp only [btoa, atob]
    rw [b64Val_b64Char _ (by omega), b64Val_b64Char _ (by omega)]
    dsimp only
    rw [if_neg (fun hc => b64Char_ne_61 _ hc.1)]
    rw [b64Val_b64Char _ (by omega)]
    dsimp only
    rw [if_pos ⟨trivial, trivial⟩]
    simp only [Option.some.injEq, List.cons.injEq, and_true]
    constructor <;> omega
  | case4 b0 b1 b2 rest ih =>
    have hb0 : b0 < 256 := h256 _ (by simp)
    have hb1 : b1 < 256 := h256 _ (by simp)
    have hb2 : b2 < 256 := h256 _ (by simp)
    have hrest : ∀ b ∈ rest, b < 256 := fun b hb => h256 _ (by simp [hb])
    simp only [btoa, atob]
    rw [b64Val_b64Char _ (by omega), b64Val_b64Char _ (by omega)]
    dsimp only
    rw [if_neg (fun hc => b64Char_ne_61 _ hc.1)]
    rw [b64Val_b64Char _ (by omega)]
    dsimp only
    rw [if_neg (fun hc => b64Char_ne_61 _ hc.1)]
    rw [b64Val_b64Char _ (by omega), ih hrest]
    dsimp only
    simp only [Option.some.injEq, List.cons.injEq, and_true]
    refine ⟨by omega, by omega, by omega⟩

theorem b64Char_lt (v : Nat) : b64Char v < 256 := by
  unfold b64Char
  split
  · omega
  · split
    · omega
    · split
      · omega
      · split <;> omega

theorem mem_btoa_lt (bs : List Nat) : ∀ b ∈ btoa bs, b < 256 := by
  induction bs using btoa.induct with
  | case1 => simp [btoa]
  | case2 b0 =>
    simp only [btoa, List.mem_cons, List.not_mem_nil, or_false]
    rintro b (rfl | rfl | rfl | rfl) <;> first | exact b64Char_lt _ | omega
  | case3 b0 b1 =>
    simp only [btoa, List.mem_cons, List.not_mem_nil, or_false]
    rintro b (rfl | rfl | rfl | rfl) <;> first | exact b64Char_lt _ | omega
  | case4 b0 b1 b2 rest ih =>
    simp only [btoa, List.mem_cons]
    rintro b (rfl | rfl | rfl | rfl | hmem)
    · exact b64Char_lt _
    · exact b64Char_lt _
    · exact b64Char_lt _
    · exact b64Char_lt _
    · exact ih _ hmem

theorem btoa_of_magic {bytes : List Nat} (hmagic : bytes.take 4 = [0, 97, 115, 109]) :
    btoa bytes = 65 :: 71 :: 70 :: 122 :: btoa (109 :: bytes.drop 4) := by
  have hb : bytes = 0 :: 97 :: 115 :: 109 :: bytes.drop 4 := by
    conv_lhs => rw [← List.take_append_drop 4 bytes]
    rw [hmagic]
    rfl
  conv_lhs => rw [hb]
  simp only [btoa]
  norm_num [b64Char]

/-- C6: a second Base64 layer is stripped exactly when the first decode does
not start with byte 0 and the decoded text starts with AGFz; a doubly-encoded
guest binary decodes to the true module bytes and a singly-encoded one is
decoded exactly once. -/
theorem claim_C6_doubleBase64 :
    (∀ data s, atob data = some s → ¬(s.head? ≠ some 0 ∧ s.take 4 = wasmMagicB64) →
      decodeWasmPayload data = some s) ∧
    (∀ bytes, (∀ b ∈ bytes, b < 256) → bytes.take 4 = [0, 97, 115, 109] →
      decodeWasmPayload (btoa bytes) = some bytes ∧
      decodeWasmPayload (btoa (btoa bytes)) = some bytes) := by
  constructor
  · intro data s hs hcond
    unfold decodeWasmPayload
    rw [hs, Option.some_bind, if_neg hcond]
  · intro bytes h256 hmagic
    have hbytes : bytes = 0 :: 97 :: 115 :: 109 :: bytes.drop 4 := by
      conv_lhs => rw [← List.take_append_drop 4 bytes]
      rw [hmagic]
      rfl
    constructor
    · unfold decodeWasmPayload
      rw [atob_btoa bytes h256, Option.some_bind]
      rw [if_neg (fun hc => hc.1 (by rw [hbytes]; rfl))]
    · unfold decodeWasmPayload
      rw [atob_btoa (btoa bytes) (mem_btoa_lt bytes), Option.some_bind]
      rw [if_pos ⟨by rw [btoa_of_magic hmagic]; simp, by rw [btoa_of_magic hmagic]; rfl⟩]
      rw [atob_btoa bytes h256, Option.getD_some]

/-- C6 witness: the double-Base64 theorem applied to the four magic bytes. -/
theorem claim_C6_witness :
    decodeWasmPayload (btoa [0, 97, 115, 109]) = some [0, 97, 115, 109] ∧
    decodeWasmPayload (btoa (btoa [0, 97, 115, 109])) = some [0, 97, 115, 109] :=
  claim_C6_doubleBase64.2 [0, 97, 115, 109] (by decide) rfl

/-! ## Lemmas: UTF-8 -/

theorem char_toNat_valid (c : Char) :
    c.toNat < 55296 ∨ (57343 < c.toNat ∧ c.toNat < 1114112) := by
  rcases c.valid with h | ⟨h1, h2⟩
  · exact Or.inl h
  · exact Or.inr ⟨h1, h2⟩

theorem utf8EncodeCP_lt {n : Nat} (h : n < 1114112) : ∀ b ∈ utf8EncodeCP n, b < 256 := by
  intro b hb
  unfold utf8EncodeCP at hb
  split at hb
  · simp at hb
    omega
  · split at hb
    · simp at hb
      rcases hb with rfl | rfl <;> omega
    · split at hb
      · simp at hb
        rcases hb with rfl | rfl | rfl <;> omega
      · simp at hb
        rcases hb with rfl | rfl | rfl | rfl <;> omega

theorem utf8EncodeCP_ne_nil (n : Nat) : utf8EncodeCP n ≠ [] := by
  unfold utf8EncodeCP
  split
  · simp
  · split
    · simp
    · split <;> simp

theorem utf8EncodeCP_length_pos (n : Nat) : 0 < (utf8EncodeCP n).length :=
  List.length_pos.mpr (utf8EncodeCP_ne_nil n)

theorem utf8DecodeOne_encCP {n : Nat} (hv : n < 55296 ∨ (57343 < n ∧ n < 1114112))
    (rest : List Nat) :
    utf8DecodeOne (utf8EncodeCP n ++ rest) = some (n, rest) := by
  unfold utf8EncodeCP
  split
  · rename_i h1
    simp only [List.cons_append, List.nil_append, utf8DecodeOne]
    rw [if_pos h1]
  · split
    · rename_i h1 h2
      simp only [List.cons_append, List.nil_append, utf8DecodeOne]
      rw [if_neg (by omega), if_neg (by omega), if_pos (by omega)]
      rw [if_pos (by omega)]
      simp only [Option.some.injEq, Prod.mk.injEq, and_true]
      omega
    · split
      · rename_i h1 h2 h3
        simp only [List.cons_append, List.nil_append, utf8DecodeOne]
        rw [if_neg (by omega), if_neg (by omega), if_neg (by omega), if_pos (by omega)]
        rw [if_pos (by omega)]
        have he : (224 + n / 4096 - 224) * 4096 + (128 + n / 64 % 64 - 128) * 64 +
            (128 + n % 64 - 128) = n := by omega
        rw [he]
        rw [if_neg (by omega)]
      · rename_i h1 h2 h3
        simp only [List.cons_append, List.nil_append, utf8DecodeOne]
        rw [if_neg (by omega), if_neg (by omega), if_neg (by omega), if_neg (by omega),
          if_pos (by omega)]
        rw [if_pos (by omega)]
        have he : (240 + n / 262144 - 240) * 262144 + (128 + n / 4096 % 64 - 128) * 4096 +
            (128 + n / 64 % 64 - 128) * 64 + (128 + n % 64 - 128) = n := by omega
        rw [he]
        rw [if_neg (by omega)]

theorem utf8DecodeAux_flatMap (cs : List Char) :
    ∀ fuel, (cs.flatMap fun c => utf8EncodeCP c.toNat).length ≤ fuel →
      utf8DecodeAux fuel (cs.flatMap fun c => utf8EncodeCP c.toNat) =
        some (cs.map Char.toNat) := by
  induction cs with
  | nil =>
    intro fuel _
    cases fuel <;> rfl
  | cons c cs ih =>
    intro fuel hf
    simp only [List.flatMap_cons, List.map_cons] at hf ⊢
    have hpos := utf8EncodeCP_length_pos c.toNat
    obtain ⟨b, bs0, hb⟩ := List.exists_cons_of_ne_nil (utf8EncodeCP_ne_nil c.toNat)
    have hfuel : ∃ f, fuel = f + 1 := by
      simp only [List.length_append] at hf
      cases fuel
      · omega
      · exact ⟨_, rfl⟩
    obtain ⟨f, rfl⟩ := hfuel
    rw [hb, List.cons_append, utf8DecodeAux]
    rw [← List.cons_append, ← hb, utf8DecodeOne_encCP (char_toNat_valid c)]
    dsimp only
    rw [ih f (by simp only [List.length_append] at hf; omega)]
    rfl

theorem utf8Decode_textEncode (s : String) :
    utf8Decode (textEncode s) = some (s.data.map Char.toNat) := by
  unfold utf8Decode textEncode
  exact utf8DecodeAux_flatMap s.data _ (Nat.le_refl _)

theorem textDecode_textEncode (s : String) : textDecode (textEncode s) = some s := by
  unfold textDecode
  rw [utf8Decode_textEncode]
  simp only [Option.map_some']
  congr 1
  have hmap : List.map Char.ofNat (List.map Char.toNat s.data) = s.data := by
    simp [List.map_map, Function.comp_def, Char.ofNat_toNat]
  rw [hmap]

theorem textEncode_lt (s : String) : ∀ b ∈ textEncode s, b < 256 := by
  intro b hb
  unfold textEncode at hb
  simp only [List.mem_flatMap] at hb
  obtain ⟨c, _, hbc⟩ := hb
  have hv := char_toNat_valid c
  exact utf8EncodeCP_lt (by omega) _ hbc

/-- C3: for every string S, writing S with writeString and reading the
returned header back with readString yields exactly the UTF-8 bytes of S, and
TextDecoder inverts TextEncoder, so decode(encode(S)) = S. -/
theorem claim_C3_roundtrip (S : String) (rt : Runtime) (hdr : StrHeader) (rt' : Runtime)
    (hok : rt.writeString (textEncode S) = .ok (hdr, rt')) :
    ∃ bs, rt'.readString hdr.ptr hdr.len = .ok bs ∧ textDecode bs = some S := by
  obtain ⟨hlen, hple, hsum, hlt, hag, hread, hf1, hf2⟩ := writeString_spec hok (textEncode_lt S)
  refine ⟨textEncode S, ?_, textDecode_textEncode S⟩
  unfold Runtime.readString
  rw [if_pos (by rw [hlen]; omega)]
  rw [hread rt'.mem (fun j hj1 hj2 => rfl)]

/-- C3 witness: the round trip at the magic-prefix string. -/
theorem claim_C3_witness :
    ∃ bs, Runtime.readString ⟨[0, 97, 115, 109], true, true⟩ 0 4 = .ok bs ∧
      textDecode bs = some "\x00asm" :=
  claim_C3_roundtrip "\x00asm" ⟨[], true, true⟩ ⟨0, 4⟩ ⟨[0, 97, 115, 109], true, true⟩ rfl

/-! ## Claims about the execution host -/

/-- C7: the host invokes the export named run when it exists, otherwise the
export named main, and with neither export it reports success false with the
no-entry-point error message and the accumulated logs. -/
theorem claim_C7_entryDispatch :
    (∀ logs0 inst logs code, inst.runE = some ⟨logs, .ret code⟩ →
      dispatchEntry logs0 inst = ⟨true, some code, none, some (logs0 ++ logs)⟩) ∧
    (∀ logs0 inst logs code, inst.runE = none → inst.mainE = some ⟨logs, .ret code⟩ →
      dispatchEntry logs0 inst = ⟨true, some code, none, some (logs0 ++ logs)⟩) ∧
    (∀ logs0 inst, inst.runE = none → inst.mainE = none →
      dispatchEntry logs0 inst =
        ⟨false, none, some "No run or main export found", some logs0⟩) := by
  refine ⟨?_, ?_, ?_⟩
  · intro logs0 inst logs code hr
    unfold dispatchEntry
    rw [hr]
  · intro logs0 inst logs code hr hm
    unfold dispatchEntry
    rw [hr, hm]
  · intro logs0 inst hr hm
    unfold dispatchEntry
    rw [hr, hm]

/-- C7 witness: dispatch at an instance exporting both run and main. -/
theorem claim_C7_witness :
    dispatchEntry [] ⟨some ⟨["log line"], .ret 7⟩, some ⟨[], .ret 9⟩, true⟩ =
      ⟨true, some 7, none, some (([] : List String) ++ ["log line"])⟩ :=
  claim_C7_entryDispatch.1 [] ⟨some ⟨["log line"], .ret 7⟩, some ⟨[], .ret 9⟩, true⟩
    ["log line"] 7 rfl

/-- C1 counterexample: an allocator-less guest whose run transfers no data
runs to completion successfully, so the host does not fail before guest code
executes. -/
theorem claim_C1_counterexample :
    runWasmPacketItem (btoa [0, 97, 115, 109])
      (fun _ => .ok ⟨some ⟨[], .ret 0⟩, none, false⟩ []) =
      ⟨true, some 0, none, some []⟩ := by
  rfl

/-- C1 (amended): the missing allocator is not detected at instantiation;
the entry point runs regardless, and the first host-to-guest transfer fails
with the message naming both accepted export names. -/
theorem claim_C1_amended :
    (∀ rt : Runtime, rt.hasCabiRealloc = false → rt.hasCanonicalAbiRealloc = false →
      (∀ size align, rt.alloc size align =
        .error "WASM module missing \x27cabi_realloc\x27 or \x27canonical_abi_realloc\x27 export") ∧
      (∀ bs, rt.writeString bs =
        .error "WASM module missing \x27cabi_realloc\x27 or \x27canonical_abi_realloc\x27 export")) ∧
    (∀ logs0 inst, dispatchEntry logs0 inst =
      dispatchEntry logs0 { inst with hasAllocator := true }) := by
  constructor
  · intro rt h1 h2
    exact ⟨fun size align => alloc_missing h1 h2 size align,
      fun bs => writeString_missing h1 h2 bs⟩
  · intro logs0 inst
    rfl

/-- C1 witness: the amended theorem applied to the no-allocator runtime. -/
theorem claim_C1_witness :
    Runtime.alloc ⟨[], false, false⟩ 12 4 =
      .error "WASM module missing \x27cabi_realloc\x27 or \x27canonical_abi_realloc\x27 export" :=
  (claim_C1_amended.1 ⟨[], false, false⟩ rfl rfl).1 12 4

/-- C4 counterexample: a trapping entry point responds with the error but
without the accumulated logs. -/
theorem claim_C4_counterexample :
    dispatchEntry [] ⟨some ⟨["pre-crash log"], .err "boom"⟩, none, true⟩ =
      ⟨false, none, some "boom", none⟩ := rfl

/-- C4 (amended): only the missing-entry-point response carries the logs;
payload decode failures, link errors, other instantiation errors and traps
respond with the error message alone. -/
theorem claim_C4_amended :
    (∀ logs0 inst logs msg, inst.runE = some ⟨logs, .err msg⟩ →
      dispatchEntry logs0 inst = ⟨false, none, some msg, none⟩) ∧
    (∀ logs0 inst logs msg, inst.runE = none → inst.mainE = some ⟨logs, .err msg⟩ →
      dispatchEntry logs0 inst = ⟨false, none, some msg, none⟩) ∧
    (∀ logs0 inst, inst.runE = none → inst.mainE = none →
      dispatchEntry logs0 inst =
        ⟨false, none, some "No run or main export found", some logs0⟩) ∧
    (∀ data bytes f msg, decodeWasmPayload data = some bytes → f bytes = .linkError msg →
      runWasmPacketItem data f =
        ⟨false, none, some ("WASM LinkError: " ++ msg ++
          ". Possible mismatch between generated code and host imports."), none⟩) ∧
    (∀ data bytes f msg, decodeWasmPayload data = some bytes → f bytes = .otherError msg →
      runWasmPacketItem data f = ⟨false, none, some msg, none⟩) := by
  refine ⟨?_, ?_, ?_, ?_, ?_⟩
  · intro logs0 inst logs msg hr
    unfold dispatchEntry
    rw [hr]
  · intro logs0 inst logs msg hr hm
    unfold dispatchEntry
    rw [hr, hm]
  · intro logs0 inst hr hm
    unfold dispatchEntry
    rw [hr, hm]
  · intro data bytes f msg hd hf
    unfold runWasmPacketItem
    rw [hd]
    dsimp only
    rw [hf]
  · intro data bytes f msg hd hf
    unfold runWasmPacketItem
    rw [hd]
    dsimp only
    rw [hf]

/-- C4 witness: the amended theorem at concrete failing instantiations. -/
theorem claim_C4_witness :
    dispatchEntry ["kept"] ⟨some ⟨["dropped"], .err "trap"⟩, none, true⟩ =
      ⟨false, none, some "trap", none⟩ :=
  claim_C4_amended.1 ["kept"] ⟨some ⟨["dropped"], .err "trap"⟩, none, true⟩ ["dropped"] "trap" rfl

/-! ## Claims about `SQLiteManager.restoreCheckpoint` -/

theorem mapGet_mapSet_self (l : List (String × DBHandle)) (k : String) (v : DBHandle) :
    mapGet (mapSet l k v) k = some v := by
  induction l with
  | nil => simp [mapSet, mapGet]
  | cons p rest ih =>
    obtain ⟨k1, v1⟩ := p
    by_cases hk : k1 = k
    · simp [mapSet, mapGet, hk]
    · simp [mapSet, mapGet, hk, ih]

theorem mapGet_mapSet_ne (l : List (String × DBHandle)) (k k' : String) (v : DBHandle)
    (hne : k' ≠ k) : mapGet (mapSet l k v) k' = mapGet l k' := by
  induction l with
  | nil => simp [mapSet, mapGet, Ne.symm hne]
  | cons p rest ih =>
    obtain ⟨k1, v1⟩ := p
    by_cases hk : k1 = k
    · subst hk
      simp only [mapSet, if_pos rfl, mapGet]
      rw [if_neg (fun h => hne h.symm), if_neg (fun h => hne h.symm)]
    · simp only [mapSet, if_neg hk, mapGet]
      by_cases hk' : k1 = k'
      · simp [hk']
      · simp [hk', ih]

/-- C10: restoreCheckpoint returns false and leaves the database map
untouched when no checkpoint value is stored under the key, and returning
true means a stored checkpoint was decoded and only that entry replaced. -/
theorem claim_C10_restoreCheckpoint (m : ManagerState)
    (storage : String → Option (List Nat)) (name : String) :
    (storage ("checkpoint_" ++ name) = none →
      restoreCheckpoint m storage name = .ok (false, m)) ∧
    (∀ b res, restoreCheckpoint m storage name = .ok (b, res) → b = true →
      ∃ b64 bytes, storage ("checkpoint_" ++ name) = some b64 ∧ atob b64 = some bytes ∧
        res.databases = mapSet m.databases name ⟨some bytes⟩ ∧
        mapGet res.databases name = some ⟨some bytes⟩ ∧
        ∀ k, k ≠ name → mapGet res.databases k = mapGet m.databases k) := by
  constructor
  · intro hnone
    unfold restoreCheckpoint
    rw [hnone]
  · intro b res hok hb
    subst hb
    unfold restoreCheckpoint at hok
    cases hs : storage ("checkpoint_" ++ name) with
    | none =>
      rw [hs] at hok
      exact absurd hok (by simp)
    | some b64 =>
      rw [hs] at hok
      dsimp only at hok
      cases ha : atob b64 with
      | none =>
        rw [ha] at hok
        exact absurd hok (by simp)
      | some bytes =>
        rw [ha] at hok
        simp only [Except.ok.injEq, Prod.mk.injEq, true_and] at hok
        refine ⟨b64, bytes, rfl, ha, ?_, ?_, ?_⟩
        · rw [← hok]
        · rw [← hok]
          exact mapGet_mapSet_self _ _ _
        · intro k hk
          rw [← hok]
          exact mapGet_mapSet_ne _ _ _ _ hk

/-- C10 witness: the theorem at a one-entry manager state. -/
theorem claim_C10_witness :
    restoreCheckpoint ⟨[("packets", ⟨none⟩)]⟩ (fun _ => none) "missing" =
      .ok (false, (⟨[("packets", ⟨none⟩)]⟩ : ManagerState)) :=
  (claim_C10_restoreCheckpoint ⟨[("packets", ⟨none⟩)]⟩ (fun _ => none) "missing").1 rfl

/-! ## Claims about the sqlite capability argument decoding (C2) -/

theorem readString_oob {rt : Runtime} {p l : Nat} (h : rt.mem.length < p + l) :
    rt.readString p l = .error "RangeError: invalid typed array length" := by
  unfold Runtime.readString
  rw [if_neg (by omega)]

theorem readString_ok {rt : Runtime} {p l : Nat} (h : p + l ≤ rt.mem.length) :
    rt.readString p l = .ok (readBytes rt.mem p l) := by
  unfold Runtime.readString
  rw [if_pos h]

theorem agreesBelow_setU32 (m : List Nat) (q v L : Nat) (hL : L ≤ q) :
    agreesBelow m (setU32 m q v) L :=
  fun j hj => readByte_setU32_outside _ _ _ _ (Or.inl (by omega))

/-- C2 counterexample: an out-of-bounds argument pair of sqlite.execute
aborts the invocation with a RangeError instead of reaching the guest as the
Err arm. -/
theorem claim_C2_counterexample :
    sqliteExecute (fun _ _ => .ok 0) ⟨[], true, true⟩ 0 1 0 0 =
      .error "RangeError: invalid typed array length" := rfl

/-- C2 (amended): out-of-bounds pointer/length arguments are decoded before
the try block of execute and query, so the RangeError escapes as an
invocation-level failure; errors raised inside the guarded body are encoded
as the Err arm, discriminant 1 with the message string. -/
theorem claim_C2_amended :
    (∀ dbExec rt p1 l1 p2 l2, rt.mem.length < p1 + l1 →
      sqliteExecute dbExec rt p1 l1 p2 l2 = .error "RangeError: invalid typed array length") ∧
    (∀ dbExec rt p1 l1 p2 l2, p1 + l1 ≤ rt.mem.length → rt.mem.length < p2 + l2 →
      sqliteExecute dbExec rt p1 l1 p2 l2 = .error "RangeError: invalid typed array length") ∧
    (∀ dbQuery rt p1 l1 p2 l2, rt.mem.length < p1 + l1 →
      sqliteQuery dbQuery rt p1 l1 p2 l2 = .error "RangeError: invalid typed array length") ∧
    (∀ dbQuery rt p1 l1 p2 l2, p1 + l1 ≤ rt.mem.length → rt.mem.length < p2 + l2 →
      sqliteQuery dbQuery rt p1 l1 p2 l2 = .error "RangeError: invalid typed array length") ∧
    (∀ dbExec rt p1 l1 p2 l2 (e : String) resPtr rt',
      (∀ d s, dbExec d s = Except.error e) →
      sqliteExecute dbExec rt p1 l1 p2 l2 = .ok (resPtr, rt') →
      readU32 rt'.mem resPtr = 1 ∧
      readBytes rt'.mem (readU32 rt'.mem (resPtr + 4)) (readU32 rt'.mem (resPtr + 8)) =
        textEncode e) := by
  refine ⟨?_, ?_, ?_, ?_, ?_⟩
  · intro dbExec rt p1 l1 p2 l2 h
    unfold sqliteExecute
    rw [readString_oob h, eBindErr]
  · intro dbExec rt p1 l1 p2 l2 h1 h2
    unfold sqliteExecute
    rw [readString_ok h1, eBindOk, readString_oob h2, eBindErr]
  · intro dbQuery rt p1 l1 p2 l2 h
    unfold sqliteQuery
    rw [readString_oob h, eBindErr]
  · intro dbQuery rt p1 l1 p2 l2 h1 h2
    unfold sqliteQuery
    rw [readString_ok h1, eBindOk, readString_oob h2, eBindErr]
  · intro dbExec rt p1 l1 p2 l2 e resPtr rt' hdb hok
    unfold sqliteExecute at hok
    cases hr1 : rt.readString p1 l1 with
    | error e1 =>
      rw [hr1, eBindErr] at hok
      exact absurd hok (by simp)
    | ok dbName =>
      rw [hr1, eBindOk] at hok
      cases hr2 : rt.readString p2 l2 with
      | error e2 =>
        rw [hr2, eBindErr] at hok
        exact absurd hok (by simp)
      | ok sql =>
        rw [hr2, eBindOk] at hok
        have hbody : executeTryBody dbExec rt dbName sql = .error e := by
          unfold executeTryBody
          rw [hdb dbName sql, eBindErr]
        rw [hbody] at hok
        dsimp only at hok
        cases hw : rt.writeString (textEncode e) with
        | error e3 =>
          rw [hw, eBindErr] at hok
          exact absurd hok (by simp)
        | ok pr =>
          obtain ⟨ehdr, rt1⟩ := pr
          rw [hw, eBindOk] at hok
          cases ha : rt1.alloc 12 4 with
          | error e4 =>
            rw [ha, eBindErr] at hok
            exact absurd hok (by simp)
          | ok pr2 =>
            obtain ⟨rp, rt2⟩ := pr2
            rw [ha, eBindOk] at hok
            simp only [Except.ok.injEq, Prod.mk.injEq] at hok
            obtain ⟨hrp, hrt⟩ := hok
            subst hrp
            subst hrt
            obtain ⟨hwlen, hwple, hwsum, hwlt, hwag, hwread, _, _⟩ :=
              writeString_spec hw (textEncode_lt e)
            obtain ⟨haple, halen, halt, haag, _, _⟩ := alloc_spec ha
            simp only [Runtime.withMem]
            constructor
            · rw [readU32_setU32_outside _ _ _ _ (Or.inl (by omega)),
                readU32_setU32_outside _ _ _ _ (Or.inl (by omega)),
                readU32_setU32 _ _ _ (by omega)]
            · have hArg1 : readU32 (setU32 (setU32 (setU32 rt2.mem rp 1)
                  (rp + 4) ehdr.ptr) (rp + 8) ehdr.len) (rp + 4) = ehdr.ptr := by
                rw [readU32_setU32_outside _ _ _ _ (Or.inl (by omega)),
                  readU32_setU32 _ _ _ (by rw [length_setU32]; omega)]
                exact Nat.mod_eq_of_lt (by omega)
              have hArg2 : readU32 (setU32 (setU32 (setU32 rt2.mem rp 1)
                  (rp + 4) ehdr.ptr) (rp + 8) ehdr.len) (rp + 8) = ehdr.len := by
                rw [readU32_setU32 _ _ _
                  (by rw [length_setU32, length_setU32]; omega)]
                exact Nat.mod_eq_of_lt (by omega)
              rw [hArg1, hArg2]
              apply hwread
              have hag3 : agreesBelow rt2.mem
                  (setU32 (setU32 (setU32 rt2.mem rp 1) (rp + 4) ehdr.ptr)
                    (rp + 8) ehdr.len) rt1.mem.length := by
                apply agreesBelow_trans (agreesBelow_setU32 rt2.mem rp 1 _ (by omega))
                  ?_ (Nat.le_refl _)
                apply agreesBelow_trans
                  (agreesBelow_setU32 _ (rp + 4) ehdr.ptr rt1.mem.length (by omega))
                  ?_ (Nat.le_refl _)
                exact agreesBelow_setU32 _ (rp + 8) ehdr.len rt1.mem.length (by omega)
              intro j hj1 hj2
              exact agreesBelow_trans haag hag3 (by omega) j hj2

/-- C2 witness: the amended theorem at concrete runtimes, with the Err-arm
clause exercised through a failing database oracle. -/
theorem claim_C2_witness :
    sqliteExecute (fun _ _ => .ok 0) ⟨[7, 7], true, true⟩ 1 5 0 0 =
      .error "RangeError: invalid typed array length" :=
  claim_C2_amended.1 (fun _ _ => .ok 0) ⟨[7, 7], true, true⟩ 1 5 0 0 (by decide)

/-! ## Claims about `bookmarks.get-tree` (C8) -/

set_option maxHeartbeats 2000000 in
theorem encodeBookmarkList_basic {rt : Runtime} {nodes : List BNode} {enc : StrHeader}
    {rt1 : Runtime} (h : encodeBookmarkList rt nodes = .ok (enc, rt1)) :
    enc.len = nodes.length ∧ nodes.length < 4294967296 ∧ rt.mem.length ≤ enc.ptr := by
  unfold encodeBookmarkList at h
  cases ha : rt.alloc (nodes.length * 52) 4 with
  | error e =>
    rw [ha, eBindErr] at h
    exact absurd h (by simp)
  | ok pr =>
    obtain ⟨listPtr, rta⟩ := pr
    rw [ha, eBindOk] at h
    dsimp only at h
    obtain ⟨haple, halen, halt, _, _, _⟩ := alloc_spec ha
    cases hn : encodeNodesAt rta nodes listPtr with
    | error e =>
      rw [hn, eBindErr] at h
      exact absurd h (by simp)
    | ok rtb =>
      rw [hn, eBindOk] at h
      simp only [Except.ok.injEq, Prod.mk.injEq] at h
      obtain ⟨hhdr, _⟩ := h
      subst hhdr
      refine ⟨rfl, by omega, haple⟩

/-- C8: get-tree with an unpopulated cache throws Cache not ready, encoded
as an Err result with discriminant 1 carrying that message, never an Ok arm;
with a populated cache the result has discriminant 0 and carries the encoded
list length. -/
theorem claim_C8_getTree :
    (∀ rt resPtr rt', bookmarksGetTree none rt = .ok (resPtr, rt') →
      readU32 rt'.mem resPtr = 1 ∧
      readBytes rt'.mem (readU32 rt'.mem (resPtr + 4)) (readU32 rt'.mem (resPtr + 8)) =
        textEncode "Cache not ready") ∧
    (∀ nodes rt resPtr rt', getTreeTryBody (some nodes) rt = .ok (resPtr, rt') →
      bookmarksGetTree (some nodes) rt = .ok (resPtr, rt') ∧
      readU32 rt'.mem resPtr = 0 ∧ readU32 rt'.mem (resPtr + 8) = nodes.length) := by
  constructor
  · intro rt resPtr rt' hok
    have hbody : getTreeTryBody none rt = .error "Cache not ready" := rfl
    unfold bookmarksGetTree at hok
    rw [hbody] at hok
    dsimp only at hok
    cases hw : rt.writeString (textEncode "Cache not ready") with
    | error e3 =>
      rw [hw, eBindErr] at hok
      exact absurd hok (by simp)
    | ok pr =>
      obtain ⟨ehdr, rt1⟩ := pr
      rw [hw, eBindOk] at hok
      cases ha : rt1.alloc 12 4 with
      | error e4 =>
        rw [ha, eBindErr] at hok
        exact absurd hok (by simp)
      | ok pr2 =>
        obtain ⟨rp, rt2⟩ := pr2
        rw [ha, eBindOk] at hok
        simp only [Except.ok.injEq, Prod.mk.injEq] at hok
        obtain ⟨hrp, hrt⟩ := hok
        subst hrp
        subst hrt
        obtain ⟨hwlen, hwple, hwsum, hwlt, hwag, hwread, _, _⟩ :=
          writeString_spec hw (textEncode_lt "Cache not ready")
        obtain ⟨haple, halen, halt, haag, _, _⟩ := alloc_spec ha
        simp only [Runtime.withMem]
        constructor
        · rw [readU32_setU32_outside _ _ _ _ (Or.inl (by omega)),
            readU32_setU32_outside _ _ _ _ (Or.inl (by omega)),
            readU32_setU32 _ _ _ (by omega)]
        · have hArg1 : readU32 (setU32 (setU32 (setU32 rt2.mem rp 1)
              (rp + 4) ehdr.ptr) (rp + 8) ehdr.len) (rp + 4) = ehdr.ptr := by
            rw [readU32_setU32_outside _ _ _ _ (Or.inl (by omega)),
              readU32_setU32 _ _ _ (by rw [length_setU32]; omega)]
            exact Nat.mod_eq_of_lt (by omega)
          have hArg2 : readU32 (setU32 (setU32 (setU32 rt2.mem rp 1)
              (rp + 4) ehdr.ptr) (rp + 8) ehdr.len) (rp + 8) = ehdr.len := by
            rw [readU32_setU32 _ _ _
              (by rw [length_setU32, length_setU32]; omega)]
            exact Nat.mod_eq_of_lt (by omega)
          rw [hArg1, hArg2]
          apply hwread
          have hag3 : agreesBelow rt2.mem
              (setU32 (setU32 (setU32 rt2.mem rp 1) (rp + 4) ehdr.ptr)
                (rp + 8) ehdr.len) rt1.mem.length := by
            apply agreesBelow_trans (agreesBelow_setU32 rt2.mem rp 1 _ (by omega))
              ?_ (Nat.le_refl _)
            apply agreesBelow_trans
              (agreesBelow_setU32 _ (rp + 4) ehdr.ptr rt1.mem.length (by omega))
              ?_ (Nat.le_refl _)
            exact agreesBelow_setU32 _ (rp + 8) ehdr.len rt1.mem.length (by omega)
          intro j hj1 hj2
          exact agreesBelow_trans haag hag3 (by omega) j hj2
  · intro nodes rt resPtr rt' hbody
    have hfull : bookmarksGetTree (some nodes) rt = .ok (resPtr, rt') := by
      unfold bookmarksGetTree
      rw [hbody]
    refine ⟨hfull, ?_⟩
    unfold getTreeTryBody at hbody
    dsimp only at hbody
    cases he : encodeBookmarkList rt nodes with
    | error e =>
      rw [he, eBindErr] at hbody
      exact absurd hbody (by simp)
    | ok pr =>
      obtain ⟨enc, rt1⟩ := pr
      rw [he, eBindOk] at hbody
      cases ha : rt1.alloc 12 4 with
      | error e4 =>
        rw [ha, eBindErr] at hbody
        exact absurd hbody (by simp)
      | ok pr2 =>
        obtain ⟨rp, rt2⟩ := pr2
        rw [ha, eBindOk] at hbody
        simp only [Except.ok.injEq, Prod.mk.injEq] at hbody
        obtain ⟨hrp, hrt⟩ := hbody
        subst hrp
        subst hrt
        obtain ⟨hlen, hnlt, hple⟩ := encodeBookmarkList_basic he
        obtain ⟨haple, halen, halt, haag, _, _⟩ := alloc_spec ha
        simp only [Runtime.withMem]
        constructor
        · rw [readU32_setU32_outside _ _ _ _ (Or.inl (by omega)),
            readU32_setU32_outside _ _ _ _ (Or.inl (by omega)),
            readU32_setU32 _ _ _ (by omega)]
        · rw [readU32_setU32 _ _ _ (by rw [length_setU32, length_setU32]; omega)]
          rw [hlen]
          exact Nat.mod_eq_of_lt (by omega)

/-- C8 witness: both arms at a concrete runtime and one-node cache. -/
theorem claim_C8_witness :
    ∃ resPtr rt',
      bookmarksGetTree none ⟨[], true, true⟩ = .ok (resPtr, rt') ∧
      readU32 rt'.mem resPtr = 1 ∧
      readBytes rt'.mem (readU32 rt'.mem (resPtr + 4)) (readU32 rt'.mem (resPtr + 8)) =
        textEncode "Cache not ready" := by
  obtain ⟨resPtr, rt', hok⟩ :
      ∃ p r, bookmarksGetTree none ⟨[], true, true⟩ = .ok (p, r) := ⟨_, _, rfl⟩
  exact ⟨resPtr, rt', hok, claim_C8_getTree.1 _ _ _ hok⟩

/-! ## Frame lemmas for the bookmark encoders (C5) -/

theorem preservesOutside_refl (rt : Runtime) (a b : Nat) : preservesOutside rt rt a b :=
  ⟨Nat.le_refl _, fun _ _ _ => rfl⟩

theorem preservesOutside_trans {rt1 rt2 rt3 : Runtime} {a b : Nat}
    (h12 : preservesOutside rt1 rt2 a b) (h23 : preservesOutside rt2 rt3 a b) :
    preservesOutside rt1 rt3 a b := by
  obtain ⟨l12, f12⟩ := h12
  obtain ⟨l23, f23⟩ := h23
  exact ⟨Nat.le_trans l12 l23, fun j hj hw => (f23 j (by omega) hw).trans (f12 j hj hw)⟩

theorem preservesOutside_mono {rt rt' : Runtime} {a b a' b' : Nat}
    (h : preservesOutside rt rt' a' b') (ha : a ≤ a') (hb : b' ≤ b) :
    preservesOutside rt rt' a b :=
  ⟨h.1, fun j hj hw => h.2 j hj (by omega)⟩

theorem preservesOutside_of_agreesBelow {rt rt' : Runtime}
    (hlen : rt.mem.length ≤ rt'.mem.length)
    (hag : agreesBelow rt.mem rt'.mem rt.mem.length) (a b : Nat) :
    preservesOutside rt rt' a b :=
  ⟨hlen, fun j hj _ => hag j hj⟩

/-- The frame part of `writeString` (no constraint on the byte values). -/
theorem writeString_frame {rt : Runtime} {bs : List Nat} {hdr : StrHeader} {rt' : Runtime}
    (h : rt.writeString bs = .ok (hdr, rt')) :
    rt.mem.length ≤ rt'.mem.length ∧ agreesBelow rt.mem rt'.mem rt.mem.length := by
  unfold Runtime.writeString at h
  cases halloc : rt.alloc bs.length 1 with
  | error e =>
    rw [halloc, eBindErr] at h
    exact absurd h (by simp)
  | ok pr =>
    obtain ⟨p, rt1⟩ := pr
    rw [halloc, eBindOk] at h
    simp only [Except.ok.injEq, Prod.mk.injEq] at h
    obtain ⟨_, hrt⟩ := h
    subst hrt
    obtain ⟨hple, hlen1, _, hag1, _, _⟩ := alloc_spec halloc
    have hwlen : (writeBytes rt1.mem p bs).length = rt1.mem.length := length_writeBytes _ _ _
    refine ⟨by simp only [Runtime.withMem]; omega, ?_⟩
    simp only [Runtime.withMem]
    exact agreesBelow_trans hag1 (agreesBelow_writeBytes rt1.mem p bs (Nat.le_refl p)) hple

theorem setU32_window {rt : Runtime} (q v a b : Nat) (ha : a ≤ q) (hb : q + 4 ≤ b) :
    preservesOutside rt (rt.withMem (setU32 rt.mem q v)) a b := by
  refine ⟨by simp [Runtime.withMem, length_setU32], ?_⟩
  intro j hj hw
  simp only [Runtime.withMem]
  exact readByte_setU32_outside _ _ _ _ (by omega)

theorem encodeStrField_frame {rt : Runtime} {ptr off : Nat} {s : List Nat} {rt' : Runtime}
    (h : encodeStrField rt ptr off s = .ok rt') (hoff : off + 8 ≤ 52) :
    preservesOutside rt rt' ptr (ptr + 52) := by
  unfold encodeStrField at h
  cases hw : rt.writeString s with
  | error e =>
    rw [hw, eBindErr] at h
    exact absurd h (by simp)
  | ok pr =>
    obtain ⟨hdr, rt1⟩ := pr
    rw [hw, eBindOk] at h
    simp only [Except.ok.injEq] at h
    subst h
    obtain ⟨hl, hag⟩ := writeString_frame hw
    refine preservesOutside_trans (preservesOutside_of_agreesBelow hl hag ptr (ptr + 52)) ?_
    refine preservesOutside_trans (setU32_window (ptr + off) hdr.ptr ptr (ptr + 52)
      (by omega) (by omega)) ?_
    exact setU32_window (ptr + off + 4) hdr.len ptr (ptr + 52) (by omega) (by omega)

theorem encodeOptStrField_frame {rt : Runtime} {ptr off : Nat} {x : Option (List Nat)}
    {rt' : Runtime} (h : encodeOptStrField rt ptr off x = .ok rt') (hoff : off + 12 ≤ 52) :
    preservesOutside rt rt' ptr (ptr + 52) := by
  cases x with
  | none =>
    unfold encodeOptStrField at h
    simp only [Except.ok.injEq] at h
    subst h
    exact setU32_window (ptr + off) 0 ptr (ptr + 52) (by omega) (by omega)
  | some s =>
    unfold encodeOptStrField at h
    dsimp only at h
    cases hw : rt.writeString s with
    | error e =>
      rw [hw, eBindErr] at h
      exact absurd h (by simp)
    | ok pr =>
      obtain ⟨hdr, rt1⟩ := pr
      rw [hw, eBindOk] at h
      simp only [Except.ok.injEq] at h
      subst h
      obtain ⟨hl, hag⟩ := writeString_frame hw
      refine preservesOutside_trans (preservesOutside_of_agreesBelow hl hag ptr (ptr + 52)) ?_
      refine preservesOutside_trans (setU32_window (ptr + off) 1 ptr (ptr + 52)
        (by omega) (by omega)) ?_
      refine preservesOutside_trans (setU32_window (ptr + off + 4) hdr.ptr ptr (ptr + 52)
        (by omega) (by omega)) ?_
      exact setU32_window (ptr + off + 8) hdr.len ptr (ptr + 52) (by omega) (by omega)

set_option maxHeartbeats 4000000 in
theorem encode_frames : ∀ k : Nat, NodeFrameP k ∧ FieldsFrameP k ∧ NodesAtFrameP k ∧ ListFrameP k := by
  intro k
  induction k using Nat.strong_induction_on with
  | _ k ih =>
    have hfields : FieldsFrameP k := by
      intro nid npid ntitle nurl nchildren rt ptr p rt' hsz hok
      unfold encodeBookmarkFields at hok
      cases h1 : encodeStrField rt ptr 0 nid with
      | error e =>
        rw [h1, eBindErr] at hok
        exact absurd hok (by simp)
      | ok rt1 =>
        rw [h1, eBindOk] at hok
        cases h2 : encodeOptStrField rt1 ptr 8 (truthyStr npid) with
        | error e =>
          rw [h2, eBindErr] at hok
          exact absurd hok (by simp)
        | ok rt2 =>
          rw [h2, eBindOk] at hok
          cases h3 : encodeStrField rt2 ptr 20 ntitle with
          | error e =>
            rw [h3, eBindErr] at hok
            exact absurd hok (by simp)
          | ok rt3 =>
            rw [h3, eBindOk] at hok
            cases h4 : encodeOptStrField rt3 ptr 28 (truthyStr nurl) with
            | error e =>
              rw [h4, eBindErr] at hok
              exact absurd hok (by simp)
            | ok rt4 =>
              rw [h4, eBindOk] at hok
              have f1 := encodeStrField_frame h1 (by omega)
              have f2 := encodeOptStrField_frame h2 (by omega)
              have f3 := encodeStrField_frame h3 (by omega)
              have f4 := encodeOptStrField_frame h4 (by omega)
              have f1234 := preservesOutside_trans
                (preservesOutside_trans (preservesOutside_trans f1 f2) f3) f4
              cases nchildren with
              | none =>
                dsimp only at hok
                simp only [Except.ok.injEq, Prod.mk.injEq] at hok
                obtain ⟨hp, hrt⟩ := hok
                subst hp
                subst hrt
                exact ⟨rfl, preservesOutside_trans f1234
                  (setU32_window (ptr + 40) 0 ptr (ptr + 52) (by omega) (by omega))⟩
              | some cs =>
                cases cs with
                | nil =>
                  dsimp only at hok
                  simp only [Except.ok.injEq, Prod.mk.injEq] at hok
                  obtain ⟨hp, hrt⟩ := hok
                  subst hp
                  subst hrt
                  exact ⟨rfl, preservesOutside_trans f1234
                    (setU32_window (ptr + 40) 0 ptr (ptr + 52) (by omega) (by omega))⟩
                | cons c cs =>
                  dsimp only at hok
                  cases hl : encodeBookmarkList rt4 (c :: cs) with
                  | error e =>
                    rw [hl, eBindErr] at hok
                    exact absurd hok (by simp)
                  | ok pr =>
                    obtain ⟨enc, rt5⟩ := pr
                    rw [hl, eBindOk] at hok
                    dsimp only at hok
                    simp only [Except.ok.injEq, Prod.mk.injEq] at hok
                    obtain ⟨hp, hrt⟩ := hok
                    subst hp
                    subst hrt
                    have hszcs : sizeOf (c :: cs) < sizeOf (some (c :: cs) : Option (List BNode)) := by
                      simp
                    have hlf := (ih (sizeOf (c :: cs) + 1) (by omega)).2.2.2
                    obtain ⟨hlen5, hag5⟩ := hlf (c :: cs) rt4 enc rt5 (by omega) hl
                    refine ⟨rfl, preservesOutside_trans f1234 (preservesOutside_trans
                      (preservesOutside_of_agreesBelow hlen5 hag5 ptr (ptr + 52)) ?_)⟩
                    refine preservesOutside_trans (setU32_window (ptr + 40) 1 ptr (ptr + 52)
                      (by omega) (by omega)) ?_
                    refine preservesOutside_trans (setU32_window (ptr + 44) enc.ptr ptr (ptr + 52)
                      (by omega) (by omega)) ?_
                    exact setU32_window (ptr + 48) enc.len ptr (ptr + 52) (by omega) (by omega)
    have hnode : NodeFrameP k := by
      intro node rt tp p rt' hsz hok
      obtain ⟨nid, npid, ntitle, nurl, nchildren⟩ := node
      have hszc : sizeOf nchildren <
          sizeOf (BNode.mk nid npid ntitle nurl nchildren) := by
        simp
      unfold encodeBookmarkNode at hok
      cases tp with
      | none =>
        dsimp only at hok
        cases ha : rt.alloc 52 4 with
        | error e =>
          rw [ha, eBindErr] at hok
          exact absurd hok (by simp)
        | ok pr =>
          obtain ⟨p0, rt0⟩ := pr
          rw [ha, eBindOk] at hok
          dsimp only at hok
          obtain ⟨hp, hfr⟩ := hfields nid npid ntitle nurl nchildren rt0 p0 p rt'
            (by omega) hok
          subst hp
          obtain ⟨haple, halen, _, haag, _, _⟩ := alloc_spec ha
          refine ⟨preservesOutside_trans (preservesOutside_of_agreesBelow (by omega)
            haag p (p + 52)) hfr, ?_⟩
          intro q hq
          exact absurd hq (by simp)
      | some q =>
        dsimp only at hok
        by_cases hq : q = 0
        · rw [if_pos hq] at hok
          cases ha : rt.alloc 52 4 with
          | error e =>
            rw [ha, eBindErr] at hok
            exact absurd hok (by simp)
          | ok pr =>
            obtain ⟨p0, rt0⟩ := pr
            rw [ha, eBindOk] at hok
            dsimp only at hok
            obtain ⟨hp, hfr⟩ := hfields nid npid ntitle nurl nchildren rt0 p0 p rt'
              (by omega) hok
            subst hp
            obtain ⟨haple, halen, _, haag, _, _⟩ := alloc_spec ha
            refine ⟨preservesOutside_trans (preservesOutside_of_agreesBelow (by omega)
              haag p (p + 52)) hfr, ?_⟩
            intro q' hq'
            exact Or.inr (by omega)
        · rw [if_neg hq, eBindOk] at hok
          dsimp only at hok
          obtain ⟨hp, hfr⟩ := hfields nid npid ntitle nurl nchildren rt q p rt'
            (by omega) hok
          subst hp
          refine ⟨hfr, ?_⟩
          intro q' hq'
          simp only [Option.some.injEq] at hq'
          exact Or.inl hq'
    have hnodesAt : NodesAtFrameP k := by
      intro nodes rt p rt' hsz hok
      cases nodes with
      | nil =>
        unfold encodeNodesAt at hok
        simp only [Except.ok.injEq] at hok
        subst hok
        exact preservesOutside_refl rt p (p + 52 * 0)
      | cons n rest =>
        unfold encodeNodesAt at hok
        cases hn : encodeBookmarkNode rt n (some p) with
        | error e =>
          rw [hn, eBindErr] at hok
          exact absurd hok (by simp)
        | ok pr =>
          obtain ⟨p1, rt1⟩ := pr
          rw [hn, eBindOk] at hok
          dsimp only at hok
          have hsn : sizeOf n < sizeOf (n :: rest) := by
            simp
            omega
          have hsr : sizeOf rest < sizeOf (n :: rest) := by
            simp
          obtain ⟨hnf, hnp⟩ := (ih (sizeOf n + 1) (by omega)).1 n rt (some p) p1 rt1
            (by omega) hn
          have hrest := (ih (sizeOf rest + 1) (by omega)).2.2.1 rest rt1 (p + 52) rt'
            (by omega) hok
          simp only [List.length_cons]
          cases hnp p rfl with
          | inl hpe =>
            subst hpe
            exact preservesOutside_trans
              (preservesOutside_mono hnf (Nat.le_refl _) (by omega))
              (preservesOutside_mono hrest (by omega) (by omega))
          | inr hfresh =>
            have hnode_any : preservesOutside rt rt1 p (p + 52 * (rest.length + 1)) :=
              ⟨hnf.1, fun j hj _ => hnf.2 j hj (Or.inl (by omega))⟩
            exact preservesOutside_trans hnode_any
              (preservesOutside_mono hrest (by omega) (by omega))
    have hlist : ListFrameP k := by
      intro nodes rt enc rt' hsz hok
      unfold encodeBookmarkList at hok
      cases ha : rt.alloc (nodes.length * 52) 4 with
      | error e =>
        rw [ha, eBindErr] at hok
        exact absurd hok (by simp)
      | ok pr =>
        obtain ⟨listPtr, rta⟩ := pr
        rw [ha, eBindOk] at hok
        dsimp only at hok
        cases hn : encodeNodesAt rta nodes listPtr with
        | error e =>
          rw [hn, eBindErr] at hok
          exact absurd hok (by simp)
        | ok rtb =>
          rw [hn, eBindOk] at hok
          simp only [Except.ok.injEq, Prod.mk.injEq] at hok
          obtain ⟨_, hrt⟩ := hok
          subst hrt
          obtain ⟨haple, halen, _, haag, _, _⟩ := alloc_spec ha
          have hframe := hnodesAt nodes rta listPtr rtb hsz hn
          have hl1 := hframe.1
          refine ⟨by omega, ?_⟩
          intro j hj
          have h1 := haag j hj
          have h2 := hframe.2 j (by omega) (Or.inl (by omega))
          exact h2.trans h1
    exact ⟨hnode, hfields, hnodesAt, hlist⟩

set_option maxHeartbeats 4000000 in
/-- C5: encodeBookmarkNode writes option discriminant 0 at offset 28 when
the url is absent, and at offset 40 when the children list is absent or
empty, and those bytes survive the rest of the encoding. -/
theorem claim_C5_optionAbsent (node : BNode) (rt : Runtime) (p : Nat) (rt' : Runtime)
    (hok : encodeBookmarkNode rt node none = .ok (p, rt')) :
    (node.url = none → readU32 rt'.mem (p + 28) = 0) ∧
    ((node.children = none ∨ node.children = some []) → readU32 rt'.mem (p + 40) = 0) := by
  obtain ⟨nid, npid, ntitle, nurl, nchildren⟩ := node
  simp only [BNode.url, BNode.children]
  unfold encodeBookmarkNode at hok
  dsimp only at hok
  cases ha : rt.alloc 52 4 with
  | error e =>
    rw [ha, eBindErr] at hok
    exact absurd hok (by simp)
  | ok pr =>
    obtain ⟨p0, rt0⟩ := pr
    rw [ha, eBindOk] at hok
    dsimp only at hok
    obtain ⟨haple, halen, halt, haag, _, _⟩ := alloc_spec ha
    unfold encodeBookmarkFields at hok
    cases h1 : encodeStrField rt0 p0 0 nid with
    | error e =>
      rw [h1, eBindErr] at hok
      exact absurd hok (by simp)
    | ok rt1 =>
      rw [h1, eBindOk] at hok
      cases h2 : encodeOptStrField rt1 p0 8 (truthyStr npid) with
      | error e =>
        rw [h2, eBindErr] at hok
        exact absurd hok (by simp)
      | ok rt2 =>
        rw [h2, eBindOk] at hok
        cases h3 : encodeStrField rt2 p0 20 ntitle with
        | error e =>
          rw [h3, eBindErr] at hok
          exact absurd hok (by simp)
        | ok rt3 =>
          rw [h3, eBindOk] at hok
          cases h4 : encodeOptStrField rt3 p0 28 (truthyStr nurl) with
          | error e =>
            rw [h4, eBindErr] at hok
            exact absurd hok (by simp)
          | ok rt4 =>
            rw [h4, eBindOk] at hok
            have f1 := encodeStrField_frame h1 (by omega)
            have f2 := encodeOptStrField_frame h2 (by omega)
            have f3 := encodeStrField_frame h3 (by omega)
            have f4 := encodeOptStrField_frame h4 (by omega)
            have hlen3 : p0 + 52 ≤ rt3.mem.length := by
              have := f1.1
              have := f2.1
              have := f3.1
              omega
            have hlen4 : p0 + 52 ≤ rt4.mem.length := by
              have := f4.1
              omega
            have hurl0 : truthyStr nurl = none →
                readU32 rt4.mem (p0 + 28) = 0 := by
              intro ht
              rw [ht] at h4
              unfold encodeOptStrField at h4
              simp only [Except.ok.injEq] at h4
              subst h4
              simp only [Runtime.withMem]
              rw [readU32_setU32 _ _ _ (by omega)]
            cases nchildren with
            | none =>
              dsimp only at hok
              simp only [Except.ok.injEq, Prod.mk.injEq] at hok
              obtain ⟨hp, hrt⟩ := hok
              subst hp
              subst hrt
              constructor
              · intro hurl
                subst hurl
                simp only [Runtime.withMem]
                rw [readU32_setU32_outside _ _ _ _ (Or.inl (by omega))]
                exact hurl0 rfl
              · intro _
                simp only [Runtime.withMem]
                rw [readU32_setU32 _ _ _ (by omega)]
            | some cs =>
              cases cs with
              | nil =>
                dsimp only at hok
                simp only [Except.ok.injEq, Prod.mk.injEq] at hok
                obtain ⟨hp, hrt⟩ := hok
                subst hp
                subst hrt
                constructor
                · intro hurl
                  subst hurl
                  simp only [Runtime.withMem]
                  rw [readU32_setU32_outside _ _ _ _ (Or.inl (by omega))]
                  exact hurl0 rfl
                · intro _
                  simp only [Runtime.withMem]
                  rw [readU32_setU32 _ _ _ (by omega)]
              | cons c cs =>
                dsimp only at hok
                cases hl : encodeBookmarkList rt4 (c :: cs) with
                | error e =>
                  rw [hl, eBindErr] at hok
                  exact absurd hok (by simp)
                | ok pr2 =>
                  obtain ⟨enc, rt5⟩ := pr2
                  rw [hl, eBindOk] at hok
                  dsimp only at hok
                  simp only [Except.ok.injEq, Prod.mk.injEq] at hok
                  obtain ⟨hp, hrt⟩ := hok
                  subst hp
                  subst hrt
                  obtain ⟨hlen5, hag5⟩ :=
                    (encode_frames (sizeOf (c :: cs) + 1)).2.2.2 (c :: cs) rt4 enc rt5
                      (by omega) hl
                  constructor
                  · intro hurl
                    subst hurl
                    simp only [Runtime.withMem]
                    rw [readU32_setU32_outside _ _ _ _ (Or.inl (by omega)),
                      readU32_setU32_outside _ _ _ _ (Or.inl (by omega)),
                      readU32_setU32_outside _ _ _ _ (Or.inl (by omega))]
                    rw [readU32_agreesBelow _ _ _ _ hag5 (by omega)]
                    exact hurl0 rfl
                  · intro hch
                    rcases hch with hch | hch <;> exact absurd hch (by simp)

set_option maxHeartbeats 4000000 in
/-- C5 witness: a node with no url and no children encodes discriminant 0
at offsets 28 and 40. -/
theorem claim_C5_witness :
    ∃ p rt',
      encodeBookmarkNode ⟨[], true, true⟩ (.mk [65] (some [66]) [67] none none) none =
        .ok (p, rt') ∧
      readU32 rt'.mem (p + 28) = 0 ∧ readU32 rt'.mem (p + 40) = 0 := by
  obtain ⟨p, rt', hok⟩ : ∃ p r,
      encodeBookmarkNode ⟨[], true, true⟩ (.mk [65] (some [66]) [67] none none) none =
        .ok (p, r) := by
    unfold encodeBookmarkNode encodeBookmarkFields
    exact ⟨_, _, rfl⟩
  exact ⟨p, rt', hok,
    (claim_C5_optionAbsent _ _ _ _ hok).1 rfl,
    (claim_C5_optionAbsent _ _ _ _ hok).2 (Or.inl rfl)⟩

/-! ## Lemmas for the query result encoding (C9) -/

theorem readBytes_length (mem : List Nat) (p n : Nat) : (readBytes mem p n).length = n := by
  simp [readBytes]

theorem readBytes_getElem (mem : List Nat) (p n i : Nat)
    (hi : i < (readBytes mem p n).length) :
    (readBytes mem p n)[i] = readByte mem (p + i) := by
  simp [readBytes]

theorem readByte_lt_writeBytes (bs : List Nat) (mem : List Nat) (p j : Nat)
    (h : p ≤ j ∧ j < p + bs.length) (hb : j < mem.length) :
    readByte (writeBytes mem p bs) j < 256 := by
  obtain ⟨h1, h2⟩ := h
  have hij : j = p + (j - p) := by omega
  rw [hij, readByte_writeBytes_inside bs mem p (j - p) (by omega) (by omega)]
  exact Nat.mod_lt _ (by omega)

theorem readByte_lt_setU32 (mem : List Nat) (p v j : Nat)
    (h : p ≤ j ∧ j < p + 4) (hb : j < mem.length) :
    readByte (setU32 mem p v) j < 256 := by
  apply readByte_lt_writeBytes
  · simp only [u32Bytes, List.length_cons, List.length_nil]
    omega
  · exact hb

theorem length_writeU32List (vs : List Nat) (mem : List Nat) (p : Nat) :
    (writeU32List mem p vs).length = mem.length := by
  induction vs generalizing mem p with
  | nil => rfl
  | cons v rest ih => simp [writeU32List, ih, length_setU32]

theorem readByte_writeU32List_outside (vs : List Nat) (mem : List Nat) (p j : Nat)
    (h : j < p ∨ p + 4 * vs.length ≤ j) :
    readByte (writeU32List mem p vs) j = readByte mem j := by
  induction vs generalizing mem p with
  | nil => rfl
  | cons v rest ih =>
    simp only [List.length_cons] at h
    simp only [writeU32List]
    rw [ih _ _ (by omega)]
    exact readByte_setU32_outside _ _ _ _ (by omega)

theorem readU32_writeU32List (vs : List Nat) (mem : List Nat) (p k : Nat)
    (hk : k < vs.length) (hb : p + 4 * vs.length ≤ mem.length)
    (hval : ∀ v ∈ vs, v < 4294967296) :
    readU32 (writeU32List mem p vs) (p + 4 * k) = vs.getD k 0 := by
  induction vs generalizing mem p k with
  | nil => simp at hk
  | cons v rest ih =>
    simp only [writeU32List]
    match k with
    | 0 =>
      simp only [Nat.mul_zero, Nat.add_zero, List.getD_cons_zero]
      have houts : readU32 (writeU32List (setU32 mem p v) (p + 4) rest) p =
          readU32 (setU32 mem p v) p := by
        simp only [readU32]
        rw [readByte_writeU32List_outside _ _ _ _ (Or.inl (by omega)),
          readByte_writeU32List_outside _ _ _ _ (Or.inl (by omega)),
          readByte_writeU32List_outside _ _ _ _ (Or.inl (by omega)),
          readByte_writeU32List_outside _ _ _ _ (Or.inl (by omega))]
      rw [houts, readU32_setU32 _ _ _ (by simp only [List.length_cons] at hb; omega)]
      exact Nat.mod_eq_of_lt (hval v (by simp))
    | k + 1 =>
      simp only [List.getD_cons_succ]
      have harith : p + 4 * (k + 1) = (p + 4) + 4 * k := by omega
      rw [harith]
      apply ih
      · simpa using Nat.lt_of_succ_lt_succ (by simpa using hk)
      · rw [length_setU32]
        simp only [List.length_cons] at hb
        omega
      · intro w hw
        exact hval w (by simp [hw])

theorem readU32_copyBytes (mem : List Nat) (dst src n o : Nat)
    (ho : o + 4 ≤ n) (hdst : dst + n ≤ mem.length)
    (hlt : ∀ i, i < 4 → readByte mem (src + o + i) < 256) :
    readU32 (copyBytes mem dst src n) (dst + o) = readU32 mem (src + o) := by
  have hlen : (readBytes mem src n).length = n := readBytes_length _ _ _
  have hbyte : ∀ i, i < 4 →
      readByte (copyBytes mem dst src n) (dst + o + i) = readByte mem (src + o + i) := by
    intro i hi
    unfold copyBytes
    have hoi : dst + o + i = dst + (o + i) := by omega
    rw [hoi, readByte_writeBytes_inside _ _ _ _ (by omega) (by omega)]
    rw [readBytes_getElem mem src n (o + i) (by omega)]
    have : src + (o + i) = src + o + i := by omega
    rw [this]
    exact Nat.mod_eq_of_lt (hlt i hi)
  simp only [readU32]
  have h0 := hbyte 0 (by omega)
  have h1 := hbyte 1 (by omega)
  have h2 := hbyte 2 (by omega)
  have h3 := hbyte 3 (by omega)
  simp only [Nat.add_zero] at h0
  rw [h0, h1, h2, h3]

theorem encodeStringsAt_spec :
    ∀ (strs : List (List Nat)) (rt : Runtime) (listPtr i : Nat) (rt' : Runtime),
      encodeStringsAt rt listPtr strs i = .ok rt' →
      (∀ s ∈ strs, ∀ b ∈ s, b < 256) →
      listPtr + (i + strs.length) * 8 ≤ rt.mem.length →
      rt.mem.length ≤ rt'.mem.length ∧
      preservesOutside rt rt' (listPtr + i * 8) (listPtr + (i + strs.length) * 8) ∧
      (∀ m2, agreesBelow rt'.mem m2 rt'.mem.length → ∀ k, k < strs.length →
        readBytes m2 (readU32 m2 (listPtr + (i + k) * 8))
          (readU32 m2 (listPtr + (i + k) * 8 + 4)) = strs.getD k []) := by
  intro strs
  induction strs with
  | nil =>
    intro rt listPtr i rt' hok hbytes hbound
    unfold encodeStringsAt at hok
    simp only [Except.ok.injEq] at hok
    subst hok
    exact ⟨Nat.le_refl _, preservesOutside_refl _ _ _, fun _ _ k hk => absurd hk (by simp)⟩
  | cons s rest ih =>
    intro rt listPtr i rt' hok hbytes hbound
    simp only [List.length_cons] at hbound
    unfold encodeStringsAt at hok
    cases hw : rt.writeString s with
    | error e =>
      rw [hw, eBindErr] at hok
      exact absurd hok (by simp)
    | ok pr =>
      obtain ⟨hdr, rtA⟩ := pr
      rw [hw, eBindOk] at hok
      dsimp only at hok
      obtain ⟨hwlen, hwple, hwsum, hwlt, hwag, hwread, _, _⟩ :=
        writeString_spec hw (hbytes s (by simp))
      have hrestBytes : ∀ t ∈ rest, ∀ b ∈ t, b < 256 :=
        fun t ht => hbytes t (by simp [ht])
      have hlenB : (setU32 (setU32 rtA.mem (listPtr + i * 8) hdr.ptr)
          (listPtr + i * 8 + 4) hdr.len).length = rtA.mem.length := by
        rw [length_setU32, length_setU32]
      have hBlen : (rtA.withMem (setU32 (setU32 rtA.mem (listPtr + i * 8) hdr.ptr)
          (listPtr + i * 8 + 4) hdr.len)).mem.length = rtA.mem.length := hlenB
      obtain ⟨ihlen, ihframe, ihdec⟩ := ih
        (rtA.withMem (setU32 (setU32 rtA.mem (listPtr + i * 8) hdr.ptr)
          (listPtr + i * 8 + 4) hdr.len))
        listPtr (i + 1) rt' hok hrestBytes (by omega)
      have hlenmono : rt.mem.length ≤ rt'.mem.length := by omega
      refine ⟨hlenmono, ?_, ?_⟩
      · have fW : preservesOutside rt rtA (listPtr + i * 8)
            (listPtr + (i + (rest.length + 1)) * 8) :=
          preservesOutside_of_agreesBelow (by omega) hwag _ _
        have fS1 : preservesOutside rtA (rtA.withMem (setU32 rtA.mem (listPtr + i * 8) hdr.ptr))
            (listPtr + i * 8) (listPtr + (i + (rest.length + 1)) * 8) :=
          setU32_window _ _ _ _ (by omega) (by omega)
        have fS2 : preservesOutside (rtA.withMem (setU32 rtA.mem (listPtr + i * 8) hdr.ptr))
            (rtA.withMem (setU32 (setU32 rtA.mem (listPtr + i * 8) hdr.ptr)
              (listPtr + i * 8 + 4) hdr.len))
            (listPtr + i * 8) (listPtr + (i + (rest.length + 1)) * 8) :=
          setU32_window _ _ _ _ (by omega) (by omega)
        have fR : preservesOutside
            (rtA.withMem (setU32 (setU32 rtA.mem (listPtr + i * 8) hdr.ptr)
              (listPtr + i * 8 + 4) hdr.len)) rt'
            (listPtr + i * 8) (listPtr + (i + (rest.length + 1)) * 8) := by
          refine ⟨by omega, ?_⟩
          intro j hj hw2
          exact ihframe.2 j (by omega) (by omega)
        exact preservesOutside_trans fW (preservesOutside_trans fS1
          (preservesOutside_trans fS2 fR))
      · intro m2 hm2 k hk
        simp only [List.length_cons] at hk
        have hL : listPtr + (i + 1) * 8 ≤ rt.mem.length := by omega
        have hagL : agreesBelow
            (setU32 (setU32 rtA.mem (listPtr + i * 8) hdr.ptr)
              (listPtr + i * 8 + 4) hdr.len) m2 (listPtr + (i + 1) * 8) := by
          intro j hj
          have h1 := hm2 j (by omega)
          have h2 := ihframe.2 j (by omega) (Or.inl (by omega))
          exact h1.trans h2
        match k with
        | 0 =>
          simp only [Nat.add_zero, List.getD_cons_zero]
          have hv1 : readU32 (setU32 (setU32 rtA.mem (listPtr + i * 8) hdr.ptr)
              (listPtr + i * 8 + 4) hdr.len) (listPtr + i * 8) = hdr.ptr := by
            rw [readU32_setU32_outside _ _ _ _ (Or.inl (by omega)),
              readU32_setU32 _ _ _ (by omega)]
            exact Nat.mod_eq_of_lt (by omega)
          have hv2 : readU32 (setU32 (setU32 rtA.mem (listPtr + i * 8) hdr.ptr)
              (listPtr + i * 8 + 4) hdr.len) (listPtr + i * 8 + 4) = hdr.len := by
            rw [readU32_setU32 _ _ _ (by rw [length_setU32]; omega)]
            exact Nat.mod_eq_of_lt (by omega)
          have hr1 : readU32 m2 (listPtr + i * 8) = hdr.ptr := by
            rw [readU32_agreesBelow _ _ _ _ hagL (by omega)]
            exact hv1
          have hr2 : readU32 m2 (listPtr + i * 8 + 4) = hdr.len := by
            rw [readU32_agreesBelow _ _ _ _ hagL (by omega)]
            exact hv2
          rw [hr1, hr2]
          apply hwread
          intro j hj1 hj2
          have h1 := hm2 j (by omega)
          have h2 := ihframe.2 j (by omega) (Or.inr (by omega))
          have h3 : readByte (setU32 (setU32 rtA.mem (listPtr + i * 8) hdr.ptr)
              (listPtr + i * 8 + 4) hdr.len) j = readByte rtA.mem j := by
            rw [readByte_setU32_outside _ _ _ _ (Or.inr (by omega)),
              readByte_setU32_outside _ _ _ _ (Or.inr (by omega))]
          exact (h1.trans h2).trans h3
        | k + 1 =>
          have harith : listPtr + (i + (k + 1)) * 8 = listPtr + ((i + 1) + k) * 8 := by omega
          rw [harith]
          simp only [List.getD_cons_succ]
          exact ihdec m2 hm2 k (by omega)

theorem readByte_copyBytes_outside (mem : List Nat) (dst src n j : Nat)
    (h : j < dst ∨ dst + n ≤ j) :
    readByte (copyBytes mem dst src n) j = readByte mem j := by
  unfold copyBytes
  apply readByte_writeBytes_outside
  rw [readBytes_length]
  exact h

theorem readU32_copyBytes_outside (mem : List Nat) (dst src n j : Nat)
    (h : j + 4 ≤ dst ∨ dst + n ≤ j) :
    readU32 (copyBytes mem dst src n) j = readU32 mem j := by
  unfold copyBytes
  apply readU32_writeBytes_outside
  rw [readBytes_length]
  exact h

theorem length_copyBytes (mem : List Nat) (dst src n : Nat) :
    (copyBytes mem dst src n).length = mem.length := by
  unfold copyBytes
  exact length_writeBytes _ _ _

theorem map_range_getD (l : List (List Nat)) :
    (List.range l.length).map (fun i => l.getD i []) = l := by
  apply List.ext_getElem
  · simp
  · intro i h1 h2
    simp only [List.getElem_map, List.getElem_range]
    exact List.getD_eq_getElem l [] h2

theorem encodeStringList_spec {rt : Runtime} {strs : List (List Nat)} {ve : StrHeader}
    {rt2 : Runtime} (h : encodeStringList rt strs = .ok (ve, rt2))
    (h256 : ∀ s ∈ strs, ∀ b ∈ s, b < 256) :
    ve.len = strs.length ∧ rt.mem.length ≤ ve.ptr ∧
      ve.ptr + strs.length * 8 ≤ rt2.mem.length ∧
      ve.ptr + strs.length * 8 < 4294967296 ∧
      rt.mem.length ≤ rt2.mem.length ∧
      agreesBelow rt.mem rt2.mem rt.mem.length ∧
      (∀ m2, agreesBelow rt2.mem m2 rt2.mem.length →
        decodeStringList m2 ve.ptr ve.len = strs) := by
  unfold encodeStringList at h
  cases ha : rt.alloc (strs.length * 8) 4 with
  | error e => rw [ha, eBindErr] at h; exact absurd h (by simp)
  | ok pr =>
    obtain ⟨listPtr, rt1⟩ := pr
    rw [ha, eBindOk] at h
    dsimp only at h
    cases he : encodeStringsAt rt1 listPtr strs 0 with
    | error e => rw [he, eBindErr] at h; exact absurd h (by simp)
    | ok rtE =>
      rw [he, eBindOk] at h
      simp only [Except.ok.injEq, Prod.mk.injEq] at h
      obtain ⟨hve, hrt⟩ := h
      subst hrt
      obtain ⟨hp1, hlen1, hlt1, hag1, _, _⟩ := alloc_spec ha
      obtain ⟨hmono, hframe, hdec⟩ :=
        encodeStringsAt_spec strs rt1 listPtr 0 rtE he h256 (by omega)
      subst hve
      refine ⟨rfl, ?_, ?_, ?_, ?_, ?_, ?_⟩
      · show rt.mem.length ≤ listPtr
        omega
      · show listPtr + strs.length * 8 ≤ rtE.mem.length
        omega
      · show listPtr + strs.length * 8 < 4294967296
        omega
      · omega
      · intro j hj
        have h2 := hframe.2 j (by omega) (Or.inl (by omega))
        exact h2.trans (hag1 j hj)
      · intro m2 hm2
        show decodeStringList m2 listPtr strs.length = strs
        unfold decodeStringList
        have hmap : (List.range strs.length).map (fun i =>
            readBytes m2 (readU32 m2 (listPtr + i * 8)) (readU32 m2 (listPtr + i * 8 + 4))) =
            (List.range strs.length).map (fun i => strs.getD i []) := by
          apply List.map_congr_left
          intro i hi
          simp only [List.mem_range] at hi
          have := hdec m2 hm2 i hi
          simpa using this
        rw [hmap, map_range_getD]

theorem encodeRows_spec :
    ∀ (rows : List (List SQLValue)) (rt : Runtime) (ptrs : List Nat) (rtF : Runtime),
      encodeRows rt rows = .ok (ptrs, rtF) →
      (∀ r ∈ rows, ∀ v ∈ r, ∀ b ∈ cellToString v, b < 256) →
      ptrs.length = rows.length ∧
      rt.mem.length ≤ rtF.mem.length ∧
      agreesBelow rt.mem rtF.mem rt.mem.length ∧
      (∀ q ∈ ptrs, rt.mem.length ≤ q ∧ q + 8 ≤ rtF.mem.length ∧ q < 4294967296) ∧
      (∀ m2, agreesBelow rtF.mem m2 rtF.mem.length → ∀ k, k < rows.length →
        decodeStringList m2 (readU32 m2 (ptrs.getD k 0)) (readU32 m2 (ptrs.getD k 0 + 4)) =
          (rows.getD k []).map cellToString) := by
  intro rows
  induction rows with
  | nil =>
    intro rt ptrs rtF hok hbytes
    unfold encodeRows at hok
    simp only [Except.ok.injEq, Prod.mk.injEq] at hok
    obtain ⟨hp, hr⟩ := hok
    subst hp hr
    exact ⟨rfl, Nat.le_refl _, agreesBelow_refl _ _, fun q hq => absurd hq (by simp),
      fun _ _ k hk => absurd hk (by simp)⟩
  | cons r rest ih =>
    intro rt ptrs rtF hok hbytes
    unfold encodeRows at hok
    cases hel : encodeStringList rt (r.map cellToString) with
    | error e => rw [hel, eBindErr] at hok; exact absurd hok (by simp)
    | ok pr1 =>
      obtain ⟨ve, rtB⟩ := pr1
      rw [hel, eBindOk] at hok
      dsimp only at hok
      cases hal : rtB.alloc 8 4 with
      | error e => rw [hal, eBindErr] at hok; exact absurd hok (by simp)
      | ok pr2 =>
        obtain ⟨rPtr, rtC⟩ := pr2
        rw [hal, eBindOk] at hok
        dsimp only at hok
        cases hre : encodeRows (rtC.withMem (setU32 (setU32 rtC.mem rPtr ve.ptr)
            (rPtr + 4) ve.len)) rest with
        | error e => rw [hre, eBindErr] at hok; exact absurd hok (by simp)
        | ok pr3 =>
          obtain ⟨ps, rtR⟩ := pr3
          rw [hre, eBindOk] at hok
          simp only [Except.ok.injEq, Prod.mk.injEq] at hok
          obtain ⟨hp, hr⟩ := hok
          subst hp hr
          have h256r : ∀ s ∈ r.map cellToString, ∀ b ∈ s, b < 256 := by
            intro s hs
            simp only [List.mem_map] at hs
            obtain ⟨v, hv, rfl⟩ := hs
            exact hbytes r (by simp) v hv
          obtain ⟨hveLen, hvp1, hvp2, hvp3, hmonoB, hagB, hdecB⟩ :=
            encodeStringList_spec hel h256r
          simp only [List.length_map] at hveLen hvp2 hvp3
          obtain ⟨hcp1, hclen, hclt, hagC, _, _⟩ := alloc_spec hal
          have hrestBytes : ∀ t ∈ rest, ∀ v ∈ t, ∀ b ∈ cellToString v, b < 256 :=
            fun t ht => hbytes t (by simp [ht])
          obtain ⟨plen, hmonoR, hagR, hptrsR, hdecR⟩ := ih _ _ _ hre hrestBytes
          have hlenD : (rtC.withMem (setU32 (setU32 rtC.mem rPtr ve.ptr)
              (rPtr + 4) ve.len)).mem.length = rtC.mem.length := by
            show (setU32 (setU32 rtC.mem rPtr ve.ptr) (rPtr + 4) ve.len).length = rtC.mem.length
            rw [length_setU32, length_setU32]
          have hpeelD : ∀ j, j < rtB.mem.length →
              readByte (setU32 (setU32 rtC.mem rPtr ve.ptr) (rPtr + 4) ve.len) j =
                readByte rtC.mem j := by
            intro j hj
            rw [readByte_setU32_outside _ _ _ _ (Or.inl (by omega)),
              readByte_setU32_outside _ _ _ _ (Or.inl (by omega))]
          refine ⟨by simp [plen], by omega, ?_, ?_, ?_⟩
          · intro j hj
            have h1 := hagR j (by omega)
            have h2 := hpeelD j (by omega)
            exact ((h1.trans h2).trans (hagC j (by omega))).trans (hagB j hj)
          · intro q hq
            simp only [List.mem_cons] at hq
            cases hq with
            | inl hq =>
              subst hq
              exact ⟨by omega, by omega, by omega⟩
            | inr hq =>
              obtain ⟨ha, hb, hc⟩ := hptrsR q hq
              rw [hlenD] at ha
              exact ⟨by omega, hb, hc⟩
          · intro m2 hm2 k hk
            simp only [List.length_cons] at hk
            have hAgD : agreesBelow (rtC.withMem (setU32 (setU32 rtC.mem rPtr ve.ptr)
                (rPtr + 4) ve.len)).mem m2
                (rtC.withMem (setU32 (setU32 rtC.mem rPtr ve.ptr)
                  (rPtr + 4) ve.len)).mem.length := by
              intro j hj
              exact (hm2 j (by omega)).trans (hagR j hj)
            match k with
            | 0 =>
              simp only [List.getD_cons_zero]
              have hvD1 : readU32 (setU32 (setU32 rtC.mem rPtr ve.ptr)
                  (rPtr + 4) ve.len) rPtr = ve.ptr := by
                rw [readU32_setU32_outside _ _ _ _ (Or.inl (by omega)),
                  readU32_setU32 _ _ _ (by omega)]
                exact Nat.mod_eq_of_lt (by omega)
              have hvD2 : readU32 (setU32 (setU32 rtC.mem rPtr ve.ptr)
                  (rPtr + 4) ve.len) (rPtr + 4) = ve.len := by
                rw [readU32_setU32 _ _ _ (by rw [length_setU32]; omega)]
                exact Nat.mod_eq_of_lt (by omega)
              have hr1 : readU32 m2 rPtr = ve.ptr := by
                rw [readU32_agreesBelow _ _ _ _ hAgD (by rw [hlenD]; omega)]
                exact hvD1
              have hr2 : readU32 m2 (rPtr + 4) = ve.len := by
                rw [readU32_agreesBelow _ _ _ _ hAgD (by rw [hlenD]; omega)]
                exact hvD2
              rw [hr1, hr2]
              have hAgB2 : agreesBelow rtB.mem m2 rtB.mem.length := by
                intro j hj
                have h1 := hAgD j (by omega)
                have h2 := hpeelD j hj
                exact (h1.trans h2).trans (hagC j hj)
              simpa using hdecB m2 hAgB2
            | k + 1 =>
              simp only [List.getD_cons_succ]
              exact hdecR m2 hm2 k (by omega)

set_option maxHeartbeats 1000000 in
/-- C9: every successful `sqlite.query` encodes each cell of each returned row
as the string form of the cell value: the Ok discriminant is 0, the row count
is faithful, and decoding row `k` through the copied query-result record
yields exactly the stringified cells. -/
theorem claim_C9_queryStringifies
    (dbQuery : List Nat → List Nat → Except String QueryOut) (rt : Runtime)
    (dbName sql : List Nat) (resPtr : Nat) (rtF : Runtime) (qr : QueryOut)
    (hq : dbQuery dbName sql = .ok qr)
    (hok : queryTryBody dbQuery rt dbName sql = .ok (resPtr, rtF))
    (hcol : ∀ c ∈ qr.columns, ∀ b ∈ c, b < 256)
    (hcell : ∀ r ∈ qr.rows, ∀ v ∈ r, ∀ b ∈ cellToString v, b < 256) :
    readU32 rtF.mem resPtr = 0 ∧
    readU32 rtF.mem (resPtr + 16) = qr.rows.length ∧
    (∀ k, k < qr.rows.length →
      decodeStringList rtF.mem
        (readU32 rtF.mem (readU32 rtF.mem (readU32 rtF.mem (resPtr + 12) + k * 4)))
        (readU32 rtF.mem (readU32 rtF.mem (readU32 rtF.mem (resPtr + 12) + k * 4) + 4)) =
      (qr.rows.getD k []).map cellToString) := by
  unfold queryTryBody at hok
  rw [hq, eBindOk] at hok
  dsimp only at hok
  cases hel : encodeStringList rt qr.columns with
  | error e => rw [hel, eBindErr] at hok; exact absurd hok (by simp)
  | ok pr1 =>
    obtain ⟨colEnc, rt1⟩ := pr1
    rw [hel, eBindOk] at hok
    dsimp only at hok
    cases her : encodeRows rt1 qr.rows with
    | error e => rw [her, eBindErr] at hok; exact absurd hok (by simp)
    | ok pr2 =>
      obtain ⟨rowPtrs, rtR⟩ := pr2
      rw [her, eBindOk] at hok
      dsimp only at hok
      cases ha3 : rtR.alloc (rowPtrs.length * 4) 4 with
      | error e => rw [ha3, eBindErr] at hok; exact absurd hok (by simp)
      | ok pr3 =>
        obtain ⟨rowsListPtr, rt3⟩ := pr3
        rw [ha3, eBindOk] at hok
        dsimp only at hok
        cases ha5 : (rt3.withMem (writeU32List rt3.mem rowsListPtr rowPtrs)).alloc 16 4 with
        | error e => rw [ha5, eBindErr] at hok; exact absurd hok (by simp)
        | ok pr5 =>
          obtain ⟨qrPtr, rt5⟩ := pr5
          rw [ha5, eBindOk] at hok
          dsimp only at hok
          cases ha7 : (rt5.withMem (setU32 (setU32 (setU32 (setU32 rt5.mem qrPtr colEnc.ptr)
              (qrPtr + 4) colEnc.len) (qrPtr + 8) rowsListPtr)
              (qrPtr + 12) rowPtrs.length)).alloc 20 4 with
          | error e => rw [ha7, eBindErr] at hok; exact absurd hok (by simp)
          | ok pr7 =>
            obtain ⟨resultPtr, rt7⟩ := pr7
            rw [ha7, eBindOk] at hok
            simp only [Except.ok.injEq, Prod.mk.injEq] at hok
            obtain ⟨hrp, hrt⟩ := hok
            subst hrp
            subst hrt
            simp only [Runtime.withMem]
            obtain ⟨hc1, hc2, hc3, hc4, hc5, hagB, _⟩ := encodeStringList_spec hel hcol
            obtain ⟨hplen, hmonoR, hagR, hptrs, hdecR⟩ :=
              encodeRows_spec qr.rows rt1 rowPtrs rtR her hcell
            obtain ⟨h3a, h3b, h3c, hag3, _, _⟩ := alloc_spec ha3
            have hWlen : (rt3.withMem (writeU32List rt3.mem rowsListPtr rowPtrs)).mem.length =
                rt3.mem.length := length_writeU32List _ _ _
            obtain ⟨h5a, h5b, h5c, hag5, _, _⟩ := alloc_spec ha5
            have h6l : (rt5.withMem (setU32 (setU32 (setU32 (setU32 rt5.mem qrPtr colEnc.ptr)
                (qrPtr + 4) colEnc.len) (qrPtr + 8) rowsListPtr)
                (qrPtr + 12) rowPtrs.length)).mem.length = rt5.mem.length := by
              show (setU32 (setU32 (setU32 (setU32 rt5.mem qrPtr colEnc.ptr)
                (qrPtr + 4) colEnc.len) (qrPtr + 8) rowsListPtr)
                (qrPtr + 12) rowPtrs.length).length = rt5.mem.length
              rw [length_setU32, length_setU32, length_setU32, length_setU32]
            obtain ⟨h7a, h7b, h7c, hag7, _, _⟩ := alloc_spec ha7
            have hO5 : rt3.mem.length ≤ qrPtr := by omega
            have hO7 : rt5.mem.length ≤ resultPtr := by omega
            have hQlt : rowPtrs.length < 4294967296 := by omega
            have hsrc12 : ∀ i, i < 4 →
                readByte (setU32 rt7.mem resultPtr 0) (qrPtr + 12 + i) < 256 := by
              intro i hi
              rw [readByte_setU32_outside _ _ _ _ (Or.inl (by omega))]
              rw [hag7 (qrPtr + 12 + i) (by omega)]
              simp only [Runtime.withMem]
              apply readByte_lt_setU32 _ _ _ _ ⟨by omega, by omega⟩
              rw [length_setU32, length_setU32, length_setU32]
              omega
            have hsrc8 : ∀ i, i < 4 →
                readByte (setU32 rt7.mem resultPtr 0) (qrPtr + 8 + i) < 256 := by
              intro i hi
              rw [readByte_setU32_outside _ _ _ _ (Or.inl (by omega))]
              rw [hag7 (qrPtr + 8 + i) (by omega)]
              simp only [Runtime.withMem]
              rw [readByte_setU32_outside _ _ _ _ (Or.inl (by omega))]
              apply readByte_lt_setU32 _ _ _ _ ⟨by omega, by omega⟩
              rw [length_setU32, length_setU32]
              omega
            refine ⟨?_, ?_, ?_⟩
            · rw [readU32_copyBytes_outside _ _ _ _ _ (Or.inl (by omega)),
                readU32_setU32 _ _ _ (by omega)]
            · have h16 : resultPtr + 16 = resultPtr + 4 + 12 := by omega
              rw [h16, readU32_copyBytes (setU32 rt7.mem resultPtr 0) (resultPtr + 4) qrPtr 16 12
                (by omega) (by rw [length_setU32]; omega) hsrc12]
              rw [readU32_setU32_outside _ _ _ _ (Or.inl (by omega))]
              rw [readU32_agreesBelow _ _ _ (qrPtr + 12) hag7 (by omega)]
              simp only [Runtime.withMem]
              rw [readU32_setU32 _ _ _
                (by rw [length_setU32, length_setU32, length_setU32]; omega)]
              rw [Nat.mod_eq_of_lt hQlt]
              exact hplen
            · intro k hk
              have hkrp : k < rowPtrs.length := by omega
              have hRLP : readU32 (copyBytes (setU32 rt7.mem resultPtr 0)
                  (resultPtr + 4) qrPtr 16) (resultPtr + 12) = rowsListPtr := by
                have h12 : resultPtr + 12 = resultPtr + 4 + 8 := by omega
                rw [h12, readU32_copyBytes (setU32 rt7.mem resultPtr 0) (resultPtr + 4) qrPtr 16 8
                  (by omega) (by rw [length_setU32]; omega) hsrc8]
                rw [readU32_setU32_outside _ _ _ _ (Or.inl (by omega))]
                rw [readU32_agreesBelow _ _ _ (qrPtr + 8) hag7 (by omega)]
                simp only [Runtime.withMem]
                rw [readU32_setU32_outside _ _ _ _ (Or.inl (by omega))]
                rw [readU32_setU32 _ _ _ (by rw [length_setU32, length_setU32]; omega)]
                exact Nat.mod_eq_of_lt (by omega)
              have hPtrK : readU32 (copyBytes (setU32 rt7.mem resultPtr 0)
                  (resultPtr + 4) qrPtr 16) (rowsListPtr + k * 4) = rowPtrs.getD k 0 := by
                rw [readU32_copyBytes_outside _ _ _ _ _ (Or.inl (by omega))]
                rw [readU32_setU32_outside _ _ _ _ (Or.inl (by omega))]
                rw [readU32_agreesBelow _ _ _ (rowsListPtr + k * 4) hag7 (by omega)]
                simp only [Runtime.withMem]
                rw [readU32_setU32_outside _ _ _ _ (Or.inl (by omega)),
                  readU32_setU32_outside _ _ _ _ (Or.inl (by omega)),
                  readU32_setU32_outside _ _ _ _ (Or.inl (by omega)),
                  readU32_setU32_outside _ _ _ _ (Or.inl (by omega))]
                rw [readU32_agreesBelow _ _ _ (rowsListPtr + k * 4) hag5 (by omega)]
                simp only [Runtime.withMem]
                have hkm : rowsListPtr + k * 4 = rowsListPtr + 4 * k := by omega
                rw [hkm]
                exact readU32_writeU32List rowPtrs rt3.mem rowsListPtr k hkrp (by omega)
                  (fun v hv => (hptrs v hv).2.2)
              have hAgFin : agreesBelow rtR.mem
                  (copyBytes (setU32 rt7.mem resultPtr 0) (resultPtr + 4) qrPtr 16)
                  rtR.mem.length := by
                intro j hj
                have e1 : readByte (copyBytes (setU32 rt7.mem resultPtr 0)
                    (resultPtr + 4) qrPtr 16) j = readByte (setU32 rt7.mem resultPtr 0) j :=
                  readByte_copyBytes_outside _ _ _ _ _ (Or.inl (by omega))
                have e2 : readByte (setU32 rt7.mem resultPtr 0) j = readByte rt7.mem j :=
                  readByte_setU32_outside _ _ _ _ (Or.inl (by omega))
                have e3 := hag7 j (by omega)
                simp only [Runtime.withMem] at e3
                have e4 : readByte (setU32 (setU32 (setU32 (setU32 rt5.mem qrPtr colEnc.ptr)
                    (qrPtr + 4) colEnc.len) (qrPtr + 8) rowsListPtr)
                    (qrPtr + 12) rowPtrs.length) j = readByte rt5.mem j := by
                  rw [readByte_setU32_outside _ _ _ _ (Or.inl (by omega)),
                    readByte_setU32_outside _ _ _ _ (Or.inl (by omega)),
                    readByte_setU32_outside _ _ _ _ (Or.inl (by omega)),
                    readByte_setU32_outside _ _ _ _ (Or.inl (by omega))]
                have e5 := hag5 j (by omega)
                simp only [Runtime.withMem] at e5
                have e6 : readByte (writeU32List rt3.mem rowsListPtr rowPtrs) j =
                    readByte rt3.mem j :=
                  readByte_writeU32List_outside _ _ _ _ (Or.inl (by omega))
                have e7 : readByte rt3.mem j = readByte rtR.mem j := hag3 j (by omega)
                exact (((((e1.trans e2).trans e3).trans e4).trans e5).trans e6).trans e7
              rw [hRLP, hPtrK]
              exact hdecR _ hAgFin k hk

/-- C9 witness: a concrete query returning one column and one row with a SQL
null cell and a text cell; the encoded result has discriminant 0, row count 1,
and the row decodes to the stringified cells. -/
theorem claim_C9_witness :
    ∃ resPtr rtF,
      queryTryBody (fun _ _ => .ok ⟨[[99]], [[SQLValue.null, SQLValue.text [104]]]⟩)
        ⟨[], true, true⟩ [] [] = .ok (resPtr, rtF) ∧
      readU32 rtF.mem resPtr = 0 ∧
      readU32 rtF.mem (resPtr + 16) = 1 := by
  obtain ⟨resPtr, rtF, hok⟩ :
      ∃ resPtr rtF,
        queryTryBody (fun _ _ => .ok ⟨[[99]], [[SQLValue.null, SQLValue.text [104]]]⟩)
          ⟨[], true, true⟩ [] [] = .ok (resPtr, rtF) := ⟨_, _, rfl⟩
  obtain ⟨h1, h2, _⟩ := claim_C9_queryStringifies
    (fun _ _ => .ok ⟨[[99]], [[SQLValue.null, SQLValue.text [104]]]⟩) ⟨[], true, true⟩
    [] [] resPtr rtF ⟨[[99]], [[SQLValue.null, SQLValue.text [104]]]⟩ rfl hok
    (by decide) (by decide)
  exact ⟨resPtr, rtF, hok, h1, by rw [h2]; rfl⟩
